import Mathlib

set_option maxRecDepth 8192

/-!
A shallow embedding of the editable-table core of `mantra.py`:
the `DataFrameModel` (a pandas DataFrame behind a Qt table model), the
`QUndoCommand` subclasses (`EditCellCommand`, `DeleteCellsCommand`,
`PasteCellsCommand`, `PasteMultipleCellsCommand`), the `QUndoStack`
(push / undo / redo with the Qt semantics the code relies on: `push`
first runs `cmd.redo()`, then drops the redoable tail, appends, and
evicts from the bottom past `undoLimit`), the application-level
operations `clear_selected_cells` and `paste_clipboard_data`, and the
`ImageProcessor.run` batch image-rewriting pipeline.

Cell values are `Value`: either `na` (pandas missing value) or a string.
I/O and parsing done by external libraries (BeautifulSoup, urllib,
base64, the filesystem, the wall clock) are abstracted into an explicit
environment of oracle functions; the control flow around them is
translated from the source.
-/

namespace Mantra

/-- A pandas cell value: missing (`pd.NA` / `NaN`) or a string. -/
inductive Value where
  | na : Value
  | str : String → Value
  deriving DecidableEq

/-- The blank sentinel string recognized by `setData`: `"(필드 값 없음)"`. -/
def blankSentinel : String := "(필드 값 없음)"

/-- The value written when `setData` applies a value while `ignore_undo`
is set (mantra.py lines 274-283), and in the stack-less direct branch
(lines 327-331): the empty string and the sentinel become `pd.NA`. -/
def normApply : Value → Value
  | .na => .na
  | .str s => if s = "" ∨ s = blankSentinel then .na else .str s

/-- The input normalization of the non-ignore branch of `setData`
(lines 294-300): `pd.isna` stays `NA`, the empty string becomes `NA`,
every other string is kept (including the sentinel). -/
def normInput : Value → Value
  | .na => .na
  | .str s => if s = "" then .na else .str s

/-- The NA-safe comparison of `setData` (lines 302-309). -/
def valuesDiffer : Value → Value → Bool
  | .na, .na => false
  | .na, .str _ => true
  | .str _, .na => true
  | .str a, .str b => a != b

/-- A cell reference: zero-based `(row, column)`, as in a `QModelIndex`. -/
structure Ref where
  row : Nat
  col : Nat
  deriving DecidableEq

/-- The grid owned by `DataFrameModel._df`. Structural edits never occur
post-load, so the dimensions are fixed data. -/
structure Table where
  nrows : Nat
  ncols : Nat
  cells : Nat → Nat → Value

/-- `index.isValid()` for an index built by `model.index(row, col)`:
the coordinates lie within the current bounds. -/
def Table.valid (t : Table) (r : Ref) : Bool :=
  decide (r.row < t.nrows) && decide (r.col < t.ncols)

/-- In-place cell replacement (`self._df.iloc[row, col] = v`). -/
def Table.set (t : Table) (r : Ref) (v : Value) : Table :=
  { t with cells := fun i j => if i = r.row ∧ j = r.col then v else t.cells i j }

/-- Change notifications emitted by `setData`. -/
inductive MEvent where
  | dataChanged (r : Ref) : MEvent
  | dataChangedSignal : MEvent
  deriving DecidableEq

/-- The Qt item role passed to `setData`. -/
inductive Role where
  | display : Role
  | edit : Role
  | other : Role
  deriving DecidableEq

/-- The `DataFrameModel`: the DataFrame, the `ignore_undo` suppression
flag, and the trace of emitted change events. -/
structure DataFrameModel where
  table : Table
  ignore_undo : Bool
  events : List MEvent

/-- `DataFrameModel.data(index, DisplayRole)` (lines 240-248): the empty
string for an invalid index or a missing value, otherwise the cell's
string. -/
def DataFrameModel.data (m : DataFrameModel) (r : Ref) : String :=
  if m.table.valid r then
    match m.table.cells r.row r.col with
    | .na => ""
    | .str s => s
  else ""

/-- The body of `setData` on the `ignore_undo` path (lines 271-289): set
the blank-normalized value directly and emit both change signals. The
validity test mirrors the `index.isValid()` guard at the top of
`setData`. -/
def DataFrameModel.applyDirect (m : DataFrameModel) (r : Ref) (v : Value) : DataFrameModel :=
  if m.table.valid r then
    { m with
      table := m.table.set r (normApply v),
      events := m.events ++ [MEvent.dataChanged r, MEvent.dataChangedSignal] }
  else m

/-- The four `QUndoCommand` subclasses, as pure data. Captured prior
values are the `data(index, DisplayRole)` strings the constructors
store. -/
inductive Command where
  | editCell (r : Ref) (old new : Value) : Command
  | deleteCells (refs : List Ref) (old_values : List (Ref × String)) : Command
  | pasteCells (paste_data : List (List String)) (start : Ref)
      (old_values : List (Ref × String)) : Command
  | pasteMultiple (refs : List Ref) (value : String)
      (old_values : List (Ref × String)) : Command
  deriving DecidableEq

/-- The cell writes of one pasted row: `row[c]` goes to column
`c0 + c` of row `i` (the inner loop of `PasteCellsCommand.redo`). -/
def rowAssigns (i c0 : Nat) : List String → List (Ref × Value)
  | [] => []
  | v :: vs => (⟨i, c0⟩, Value.str v) :: rowAssigns i (c0 + 1) vs

/-- The cell writes of a pasted block, row-major from `(r0, c0)` (the
double loop of `PasteCellsCommand.redo`). -/
def blockAssigns (r0 c0 : Nat) : List (List String) → List (Ref × Value)
  | [] => []
  | row :: rest => rowAssigns r0 c0 row ++ blockAssigns (r0 + 1) c0 rest

/-- The sequence of `setData` calls a command's `redo` performs. -/
def Command.redoSteps : Command → List (Ref × Value)
  | .editCell r _ new => [(r, new)]
  | .deleteCells refs _ => refs.map fun r => (r, Value.str "")
  | .pasteCells paste_data start _ => blockAssigns start.row start.col paste_data
  | .pasteMultiple refs v _ => refs.map fun r => (r, Value.str v)

/-- The sequence of `setData` calls a command's `undo` performs:
the captured display strings are written back. -/
def Command.undoSteps : Command → List (Ref × Value)
  | .editCell r old _ => [(r, old)]
  | .deleteCells _ olds => olds.map fun p => (p.1, Value.str p.2)
  | .pasteCells _ _ olds => olds.map fun p => (p.1, Value.str p.2)
  | .pasteMultiple _ _ olds => olds.map fun p => (p.1, Value.str p.2)

/-- Run a sequence of direct cell writes (each command's `setData` calls
all execute on the `ignore_undo` path, see `setData_ignore_eq` below). -/
def applySteps (m : DataFrameModel) (steps : List (Ref × Value)) : DataFrameModel :=
  steps.foldl (fun acc p => acc.applyDirect p.1 p.2) m

/-- `cmd.redo()`: sets `ignore_undo`, performs the writes, clears it. -/
def Command.redo (c : Command) (m : DataFrameModel) : DataFrameModel :=
  let m1 := applySteps { m with ignore_undo := true } c.redoSteps
  { m1 with ignore_undo := false }

/-- `cmd.undo()`: sets `ignore_undo`, restores the captures, clears it. -/
def Command.undo (c : Command) (m : DataFrameModel) : DataFrameModel :=
  let m1 := applySteps { m with ignore_undo := true } c.undoSteps
  { m1 with ignore_undo := false }

/-- The `QUndoStack` state: the command list, the current index (number
of done commands) and `undoLimit` (0 means unbounded; the application
sets 50 at line 1000). -/
structure QUndoStack where
  commands : List Command
  idx : Nat
  limit : Nat
  deriving DecidableEq

/-- `QUndoStack.push(cmd)`: Qt first calls `cmd.redo()`, then deletes
every command above the current index, appends `cmd`, evicts from the
bottom while the count exceeds `undoLimit`, and advances the index. -/
def QUndoStack.push (s : QUndoStack) (c : Command) (m : DataFrameModel) :
    QUndoStack × DataFrameModel :=
  let m' := c.redo m
  let appended := s.commands.take s.idx ++ [c]
  let delCount := if 0 < s.limit ∧ s.limit < appended.length
    then appended.length - s.limit else 0
  ({ commands := appended.drop delCount, idx := s.idx - delCount + 1, limit := s.limit }, m')

/-- `DataFrameModel.setData` (lines 262-339), threading the optional
undo stack (`self.undo_stack`): invalid index or unsupported role fails;
on the `ignore_undo` path the value is applied directly; otherwise the
input is normalized and compared NA-safely with the old value, and when
they differ either an `EditCellCommand` is pushed (the push itself
performs the mutation via `redo`) or, with no stack, the table is
mutated directly. -/
def DataFrameModel.setData (m : DataFrameModel) (os : Option QUndoStack) (r : Ref)
    (v : Value) (role : Role) : DataFrameModel × Option QUndoStack × Bool :=
  if ¬ m.table.valid r then (m, os, false)
  else if role = Role.other then (m, os, false)
  else if m.ignore_undo then (m.applyDirect r v, os, true)
  else
    let old := m.table.cells r.row r.col
    let newV := normInput v
    if valuesDiffer old newV then
      match os with
      | some s =>
        let res := s.push (Command.editCell r old newV) m
        (res.2, some res.1, true)
      | none =>
        ({ m with
            table := m.table.set r (normApply newV),
            events := m.events ++ [MEvent.dataChanged r, MEvent.dataChangedSignal] },
         none, true)
    else (m, os, false)

/-- A command's writes routed through the full `setData`, exactly as the
Python `undo`/`redo` methods do (they call `self.model.setData` with
`self.model.ignore_undo` set). -/
def runSteps (m : DataFrameModel) (os : Option QUndoStack) (steps : List (Ref × Value)) :
    DataFrameModel × Option QUndoStack :=
  steps.foldl (fun acc p =>
    let res := DataFrameModel.setData acc.1 acc.2 p.1 p.2 Role.edit
    (res.1, res.2.1)) (m, os)

/-- `cmd.redo()` with its `setData` calls taken through the full
`setData` (the faithful translation of `EditCellCommand.redo` and its
siblings). -/
def Command.redoViaSetData (c : Command) (m : DataFrameModel) (os : Option QUndoStack) :
    DataFrameModel × Option QUndoStack :=
  let p := runSteps { m with ignore_undo := true } os c.redoSteps
  ({ p.1 with ignore_undo := false }, p.2)

/-- `cmd.undo()` with its `setData` calls taken through the full
`setData`. -/
def Command.undoViaSetData (c : Command) (m : DataFrameModel) (os : Option QUndoStack) :
    DataFrameModel × Option QUndoStack :=
  let p := runSteps { m with ignore_undo := true } os c.undoSteps
  ({ p.1 with ignore_undo := false }, p.2)

/-- Placeholder command for the (unreachable under `idx ≤ length`)
out-of-range stack lookup. -/
def defaultCommand : Command := Command.editCell ⟨0, 0⟩ Value.na Value.na

/-- `QUndoStack.undo()`: no-op at index 0, otherwise run the undo of the
command below the index and decrement the index. -/
def QUndoStack.undo (s : QUndoStack) (m : DataFrameModel) : QUndoStack × DataFrameModel :=
  if s.idx = 0 then (s, m)
  else
    let c := s.commands.getD (s.idx - 1) defaultCommand
    let p := c.undoViaSetData m (some s)
    ({ p.2.getD s with idx := s.idx - 1 }, p.1)

/-- `QUndoStack.redo()`: no-op at the end, otherwise run the redo of the
command at the index and increment the index. -/
def QUndoStack.redo (s : QUndoStack) (m : DataFrameModel) : QUndoStack × DataFrameModel :=
  if s.idx = s.commands.length then (s, m)
  else
    let c := s.commands.getD s.idx defaultCommand
    let p := c.redoViaSetData m (some s)
    ({ p.2.getD s with idx := s.idx + 1 }, p.1)

/-- `DeleteCellsCommand.__init__`: captures the display value of every
selected index. (Python stores them in a dict keyed by index; duplicate
selections collapse there, but every duplicate captures the same
pre-state value, so a plain list is observationally equal on cells.) -/
def mkDeleteCellsCommand (m : DataFrameModel) (selected : List Ref) : Command :=
  Command.deleteCells selected (selected.map fun r => (r, m.data r))

/-- `PasteCellsCommand.__init__`: captures display values of the block
positions whose index is valid. -/
def mkPasteCellsCommand (m : DataFrameModel) (paste_data : List (List String))
    (start : Ref) : Command :=
  Command.pasteCells paste_data start
    ((blockAssigns start.row start.col paste_data).filterMap fun p =>
      if m.table.valid p.1 then some (p.1, m.data p.1) else none)

/-- `PasteMultipleCellsCommand.__init__`. -/
def mkPasteMultipleCellsCommand (m : DataFrameModel) (selected : List Ref)
    (v : String) : Command :=
  Command.pasteMultiple selected v (selected.map fun r => (r, m.data r))

/-- `CSVMatcherApp.clear_selected_cells` on the (always taken in the
application, lines 997-1004) path where the undo stack exists: build one
`DeleteCellsCommand` and push it. -/
def clear_selected_cells (m : DataFrameModel) (s : QUndoStack) (selected : List Ref) :
    QUndoStack × DataFrameModel :=
  s.push (mkDeleteCellsCommand m selected) m

/-! Character-level implementations of the Python string methods the
application uses (`str.split`, `str.strip`, prefix/suffix tests); they
recurse structurally so that concrete runs evaluate. -/

/-- `str.split(sep)` on character lists (empty parts preserved,
`[""]` for the empty string, exactly as in Python). -/
def splitCh (sep : Char) : List Char → List (List Char)
  | [] => [[]]
  | c :: cs =>
    if c = sep then [] :: splitCh sep cs
    else
      match splitCh sep cs with
      | [] => [[c]]
      | h :: t => (c :: h) :: t

/-- `str.split(sep)` producing strings. -/
def splitStr (sep : Char) (s : String) : List String :=
  (splitCh sep s.toList).map String.mk

/-- `sep.join(parts)` on character lists. -/
def joinCh (sep : Char) : List (List Char) → List Char
  | [] => []
  | [p] => p
  | p :: ps => p ++ sep :: joinCh sep ps

/-- `str.strip()`: drop whitespace from both ends. -/
def trimStr (s : String) : String :=
  String.mk
    (((s.toList.dropWhile Char.isWhitespace).reverse.dropWhile Char.isWhitespace).reverse)

/-- `str.startswith(pre)`. -/
def startsWithStr (pre s : String) : Bool :=
  pre.toList.isPrefixOf s.toList

/-- `str.endswith(suf)`. -/
def endsWithStr (suf s : String) : Bool :=
  suf.toList.isSuffixOf s.toList

/-- Drop the first `n` characters. -/
def dropStr (n : Nat) (s : String) : String :=
  String.mk (s.toList.drop n)

/-- Clipboard parsing in `paste_clipboard_data` (lines 2323-2325):
strip, split on newlines, drop blank rows, split rows on tabs. -/
def parseClipboard (text : String) : List (List String) :=
  ((splitStr '\n' (trimStr text)).filter fun row => trimStr row ≠ "").map
    fun row => splitStr '\t' row

/-- `CSVMatcherApp.paste_clipboard_data` (lines 2313-2352) on the path
where the undo stack exists: empty clipboard or empty matrix is
rejected; a 1-by-1 matrix broadcasts via `PasteMultipleCellsCommand`;
otherwise a `PasteCellsCommand` anchored at the first selected index is
pushed (an empty selection there raises `IndexError`, caught by the
surrounding handler: no command is pushed). -/
def paste_clipboard_data (m : DataFrameModel) (s : QUndoStack) (selected : List Ref)
    (clipboard_text : String) : QUndoStack × DataFrameModel :=
  if clipboard_text = "" then (s, m)
  else
    match parseClipboard clipboard_text with
    | [] => (s, m)
    | row0 :: rest =>
      if rest.length = 0 ∧ row0.length = 1 then
        s.push (mkPasteMultipleCellsCommand m selected (row0.headD "")) m
      else
        match selected with
        | [] => (s, m)
        | start :: _ => s.push (mkPasteCellsCommand m (row0 :: rest) ⟨start.row, start.col⟩) m

/-! ### The `ImageProcessor.run` pipeline (lines 628-749)

URL handling helpers mirror the behavior of `urllib.parse.urlparse`,
`os.path.basename`, `os.path.splitext`, `os.path.join` and the Python
string methods on the inputs the pipeline builds (posix separators; the
code's `.replace('\\', '/')` is the identity there). The character-level
recursions implementing the Python string methods are defined above the
clipboard parser. -/

/-- Characters `urlparse` accepts inside a scheme. -/
def isSchemeChar (ch : Char) : Bool :=
  ch.isAlphanum || ch = '+' || ch = '-' || ch = '.'

/-- `urlparse(s).scheme`: the text before the first colon when it is a
well-formed scheme, otherwise empty. -/
def schemeOf (s : String) : String :=
  match splitStr ':' s with
  | head :: _ :: _ =>
    if head ≠ "" ∧ (head.toList.headD 'a').isAlpha ∧ head.toList.all isSchemeChar
    then head else ""
  | _ => ""

/-- Drop a leading `scheme:` when present. -/
def afterScheme (s : String) : String :=
  let sch := schemeOf s
  if sch = "" then s else dropStr (sch.toList.length + 1) s

/-- Skip the authority component: everything up to the first of
`/`, `?`, `#`. -/
def pastAuthority : List Char → List Char
  | [] => []
  | c :: cs => if c = '/' ∨ c = '?' ∨ c = '#' then c :: cs else pastAuthority cs

/-- Keep the path: stop at the first `?` or `#`. -/
def takePath : List Char → List Char
  | [] => []
  | c :: cs => if c = '?' ∨ c = '#' then [] else c :: takePath cs

/-- `urlparse(s).path`. -/
def urlPath (s : String) : String :=
  let r := afterScheme s
  if startsWithStr "//" r then String.mk (takePath (pastAuthority (dropStr 2 r).toList))
  else String.mk (takePath r.toList)

/-- `os.path.basename`: the segment after the last `/`. -/
def basename (s : String) : String :=
  (splitStr '/' s).getLastD s

/-- Whether `os.path.splitext(name)[1]` is nonempty: the name contains a
dot after some non-dot character. -/
def hasExt (name : String) : Bool :=
  (name.toList.dropWhile fun ch => ch = '.').contains '.'

/-- Append `.jpg` when the name has no extension (lines 676-677 and
712-713). -/
def withJpg (name : String) : String :=
  if hasExt name then name else name ++ ".jpg"

/-- `os.path.join` for the folder/filename pairs the pipeline builds. -/
def pjoin (a b : String) : String :=
  if a = "" then b
  else if endsWithStr "/" a then a ++ b
  else a ++ "/" ++ b

/-- `src.split(sep, 1)`: `none` when there is no separator (the Python
two-target unpacking then raises `ValueError`). -/
def splitFirst (s : String) (sep : Char) : Option (String × String) :=
  match splitCh sep s.toList with
  | [] => none
  | [_] => none
  | h :: t => some (String.mk h, String.mk (joinCh sep t))

/-- The scheme-completed URL of the remote branch (lines 700-704). -/
def fixScheme (s : String) : String :=
  if schemeOf s = "" then "https:" ++ s else s

/-- The pipeline configuration: `new_path`, `download_images`,
`download_folder`, `base64_download_folder`. -/
structure PConfig where
  new_path : String
  download_images : Bool
  download_folder : String
  base64_download_folder : String

/-- The oracle environment abstracting the external libraries:
BeautifulSoup's `find_all('img')` src extraction, network fetch success,
base64 decode success, file write success, and the millisecond clock
(indexed by how many timestamps were taken so far). -/
structure PEnv where
  parseImgs : String → List String
  fetchOk : String → Bool
  decodeOk : String → Bool
  writeOk : String → Bool
  timeAt : Nat → Nat

/-- The identities of the pipeline's log / error messages. -/
inductive Msg where
  | savedBase64 (row col : Nat) (path : String) : Msg
  | rewroteSrc (row col : Nat) (oldSrc newSrc : String) : Msg
  | base64Fail (row col : Nat) : Msg
  | fixedScheme (src : String) : Msg
  | downloaded (row col : Nat) (path : String) : Msg
  | urlImgFail (row col : Nat) : Msg
  deriving DecidableEq

/-- The pipeline's emitted signals: `progress`, `log`, `error`,
`update_cell` (carrying the img `src` list of the rewritten soup), and
`finished`. -/
inductive PEvent where
  | progress (pct : Nat) : PEvent
  | log (msg : Msg) : PEvent
  | error (msg : Msg) : PEvent
  | updateCell (row col : Nat) (srcs : List String) : PEvent
  | finished : PEvent
  deriving DecidableEq

/-- The Base64 branch (lines 664-695): split header from payload (no
comma raises), read the media subtype (no `/` raises), build
`img_{row}_{col}_{timestamp}.{ext}`, decode and write (either failing
raises), and on success rewrite the src. Any raise is caught: the log
and error signals fire and the reference is left unchanged. Returns the
resulting src, the emitted events, and the advanced timestamp
counter. -/
def processBase64 (env : PEnv) (cfg : PConfig) (cnt row col : Nat) (src : String) :
    String × List PEvent × Nat :=
  match splitFirst src ',' with
  | none =>
    (src, [PEvent.log (Msg.base64Fail row col), PEvent.error (Msg.base64Fail row col)], cnt)
  | some (header, encoded) =>
    match splitStr '/' header with
    | _ :: sub :: _ =>
      let file_ext := (splitStr ';' sub).headD sub
      let ts := env.timeAt cnt
      let file_name :=
        withJpg ("img_" ++ toString row ++ "_" ++ toString col ++ "_" ++ toString ts
          ++ "." ++ file_ext)
      let file_path := pjoin cfg.base64_download_folder file_name
      if env.decodeOk encoded ∧ env.writeOk file_path then
        let new_src := pjoin cfg.new_path file_name
        (new_src,
         [PEvent.log (Msg.savedBase64 row col file_path),
          PEvent.log (Msg.rewroteSrc row col src new_src)], cnt + 1)
      else
        (src, [PEvent.log (Msg.base64Fail row col), PEvent.error (Msg.base64Fail row col)],
         cnt + 1)
    | _ =>
      (src, [PEvent.log (Msg.base64Fail row col), PEvent.error (Msg.base64Fail row col)], cnt)

/-- The remote-URL branch (lines 697-731): complete a missing scheme
with `https:`, derive the file name from the URL path (an empty name
skips the reference silently), default the extension to `.jpg`, fetch
when downloading is enabled (a failed fetch raises, is caught, fires log
and error, and leaves the reference unchanged — the rewrite inside the
same `try` is skipped), and otherwise rewrite the src to
`new_path/file_name`. -/
def processRemote (env : PEnv) (cfg : PConfig) (row col : Nat) (src0 : String) :
    String × List PEvent :=
  let src := fixScheme src0
  let ev0 : List PEvent :=
    if schemeOf src0 = "" then [PEvent.log (Msg.fixedScheme src)] else []
  let file_name0 := basename (urlPath src)
  if file_name0 = "" then (src0, ev0)
  else
    let file_name := withJpg file_name0
    if cfg.download_images then
      if env.fetchOk src then
        let image_path := pjoin cfg.download_folder file_name
        let new_src := pjoin cfg.new_path file_name
        (new_src,
         ev0 ++ [PEvent.log (Msg.downloaded row col image_path),
                 PEvent.log (Msg.rewroteSrc row col src new_src)])
      else
        (src0, ev0 ++ [PEvent.log (Msg.urlImgFail row col),
                       PEvent.error (Msg.urlImgFail row col)])
    else
      let new_src := pjoin cfg.new_path file_name
      (new_src, ev0 ++ [PEvent.log (Msg.rewroteSrc row col src new_src)])

/-- Dispatch on the reference kind (line 664). -/
def processImg (env : PEnv) (cfg : PConfig) (cnt row col : Nat) (src : String) :
    String × List PEvent × Nat :=
  if startsWithStr "data:image" src then processBase64 env cfg cnt row col src
  else
    let p := processRemote env cfg row col src
    (p.1, p.2, cnt)

/-- Process every img reference of one cell in order, collecting the
rewritten src list and the emitted events. -/
def processCellImgs (env : PEnv) (cfg : PConfig) (cnt row col : Nat) :
    List String → List String × List PEvent × Nat
  | [] => ([], [], cnt)
  | src :: rest =>
    let p := processImg env cfg cnt row col src
    let q := processCellImgs env cfg p.2.2 row col rest
    (p.1 :: q.1, p.2.1 ++ q.2.1, q.2.2)

/-- One loop iteration of `ImageProcessor.run` (lines 651-747) for the
`i`-th (1-based) of `total` cells: empty cell text or no img elements
`continue` before anything is emitted; otherwise the references are
processed, the rewritten cell is emitted via `update_cell`, and then —
only then — the progress percentage `int(i / total * 100)` is
emitted. -/
def processCell (env : PEnv) (cfg : PConfig) (m : DataFrameModel) (cnt : Nat) (r : Ref)
    (i total : Nat) : List PEvent × Nat :=
  let current_data := m.data r
  if current_data = "" then ([], cnt)
  else
    let imgs := env.parseImgs current_data
    if imgs = [] then ([], cnt)
    else
      let p := processCellImgs env cfg cnt r.row r.col imgs
      (p.2.1 ++ [PEvent.updateCell r.row r.col p.1, PEvent.progress (i * 100 / total)],
       p.2.2)

/-- The cell loop of `ImageProcessor.run`, threading the 1-based
position and the timestamp counter. -/
def runCells (env : PEnv) (cfg : PConfig) (m : DataFrameModel) (total : Nat) :
    Nat → Nat → List Ref → List PEvent
  | _, _, [] => []
  | i, cnt, r :: rest =>
    let p := processCell env cfg m cnt r i total
    p.1 ++ runCells env cfg m total (i + 1) p.2 rest

/-- `ImageProcessor.run` (lines 644-749): an empty selection emits
`progress(100)` and `finished` immediately; otherwise the cells are
processed in order and one `finished` terminates the stream. The
pipeline never mutates the model: `update_cell` events are its only
channel toward the table. -/
def ImageProcessor.run (env : PEnv) (cfg : PConfig) (m : DataFrameModel)
    (selected : List Ref) : List PEvent :=
  if selected.length = 0 then [PEvent.progress 100, PEvent.finished]
  else runCells env cfg m selected.length 1 0 selected ++ [PEvent.finished]

/-! ### Auxiliary notions used to state and prove the properties -/

/-- A write at `r` hits the cell `(i, j)` of an `nr × nc` table: the
reference is in bounds and addresses that cell. -/
def hitR (nr nc i j : Nat) (r : Ref) : Prop :=
  (r.row < nr ∧ r.col < nc) ∧ r.row = i ∧ r.col = j

instance (nr nc i j : Nat) (r : Ref) : Decidable (hitR nr nc i j r) := by
  unfold hitR; infer_instance

/-- The value of cell `(i, j)` after a sequence of direct writes,
starting from `b`: the last in-bounds write at that cell wins. -/
def sFinal (nr nc i j : Nat) (steps : List (Ref × Value)) (b : Value) : Value :=
  steps.foldl (fun acc p => if hitR nr nc i j p.1 then normApply p.2 else acc) b

/-- Iterated `QUndoStack.undo`. -/
def undoN : Nat → QUndoStack × DataFrameModel → QUndoStack × DataFrameModel
  | 0, p => p
  | n + 1, p => undoN n (p.1.undo p.2)

/-- Iterated `QUndoStack.redo`. -/
def redoN : Nat → QUndoStack × DataFrameModel → QUndoStack × DataFrameModel
  | 0, p => p
  | n + 1, p => redoN n (p.1.redo p.2)

/-- Apply the `redo` of each command in order. -/
def redoChain (m : DataFrameModel) (ws : List Command) : DataFrameModel :=
  ws.foldl (fun acc c => c.redo acc) m

/-- Apply the `undo` of each command in order (callers pass the window
already reversed). -/
def undoFold (m : DataFrameModel) (ws : List Command) : DataFrameModel :=
  ws.foldl (fun acc c => c.undo acc) m

/-- Concatenate the write sequences of a command list under `f`. -/
def catSteps (f : Command → List (Ref × Value)) (ws : List Command) :
    List (Ref × Value) :=
  ws.foldr (fun c acc => f c ++ acc) []

/-- An `edit_cell` record `(ref, old, new)` and the command it builds. -/
def editCmds (es : List (Ref × Value × Value)) : List Command :=
  es.map fun e => Command.editCell e.1 e.2.1 e.2.2

/-- `redo` followed by `undo` of the same command, `k` times. -/
def cycleRU (c : Command) : Nat → DataFrameModel → DataFrameModel
  | 0, m => m
  | k + 1, m => cycleRU c k (c.undo (c.redo m))

/-- A freshly loaded model over a table. -/
def model0 (t : Table) : DataFrameModel :=
  { table := t, ignore_undo := false, events := [] }

/-- An empty undo stack with the application's bound of 50. -/
def stack50 : QUndoStack := { commands := [], idx := 0, limit := 50 }

/-- A 1×1 table holding one value. -/
def oneCell (v : Value) : Table :=
  { nrows := 1, ncols := 1, cells := fun _ _ => v }

/-! ### Concrete instances used in counterexamples and witnesses -/

/-- A pipeline environment where every nonempty cell text parses to a
single img whose src is the text itself; fetches all succeed or all
fail. -/
def selfParse (fetch : Bool) : PEnv :=
  { parseImgs := fun s => if s = "" then [] else [s],
    fetchOk := fun _ => fetch,
    decodeOk := fun _ => true,
    writeOk := fun _ => true,
    timeAt := fun n => n }

/-- Pipeline configuration with downloading disabled. -/
def cfgNoDl : PConfig :=
  { new_path := "p", download_images := false, download_folder := "d",
    base64_download_folder := "b" }

/-- Pipeline configuration with downloading enabled. -/
def cfgDl : PConfig :=
  { new_path := "p", download_images := true, download_folder := "d",
    base64_download_folder := "b" }

def c1model : DataFrameModel := model0 (oneCell (Value.str "a"))

def c1cmd : Command := Command.editCell ⟨0, 0⟩ (Value.str "a") (Value.str "b")

def c2model : DataFrameModel := model0 (oneCell (Value.str "https://h/a.png"))

def c3model : DataFrameModel := model0 (oneCell Value.na)

/-- Five cells in one column; the third holds a malformed embedded-image
reference (`data:image` with no comma), the rest a remote URL. -/
def fiveTable : Table :=
  { nrows := 5, ncols := 1,
    cells := fun i _ =>
      if i = 2 then Value.str "data:imagebroken" else Value.str "https://h/a.png" }

def c3fiveModel : DataFrameModel := model0 fiveTable

def c3fiveRefs : List Ref := [⟨0, 0⟩, ⟨1, 0⟩, ⟨2, 0⟩, ⟨3, 0⟩, ⟨4, 0⟩]

def c4model : DataFrameModel := model0 (oneCell (Value.str ""))

def c4cmd : Command := Command.editCell ⟨0, 0⟩ (Value.str "") (Value.str "x")

def c4wmodel : DataFrameModel := model0 (oneCell (Value.str "x"))

/-- Two successive edits of the same cell. -/
def c4es : List (Ref × Value × Value) :=
  [(⟨0, 0⟩, Value.na, Value.str "a"), (⟨0, 0⟩, Value.str "a", Value.str "b")]

def c5model : DataFrameModel := model0 (oneCell (Value.str ""))

def c5wtable : Table :=
  { nrows := 2, ncols := 2, cells := fun i j => Value.str ("v" ++ toString i ++ toString j) }

def c5wmodel : DataFrameModel := model0 c5wtable

def c5wrefs : List Ref := [⟨0, 0⟩, ⟨0, 1⟩, ⟨1, 0⟩]

def c6model : DataFrameModel := model0 (oneCell (Value.str ""))

def c6wmodel : DataFrameModel := model0 (oneCell Value.na)

def c7model : DataFrameModel := model0 (oneCell (Value.str "x"))

def c7wtable : Table :=
  { nrows := 3, ncols := 3, cells := fun _ _ => Value.str "o" }

def c7wmodel : DataFrameModel := model0 c7wtable

def c7wrefs : List Ref :=
  [⟨0, 0⟩, ⟨0, 1⟩, ⟨0, 2⟩, ⟨1, 0⟩, ⟨1, 1⟩, ⟨1, 2⟩, ⟨2, 0⟩, ⟨2, 1⟩, ⟨2, 2⟩]

def c8model : DataFrameModel :=
  model0 { nrows := 3, ncols := 3, cells := fun _ _ => Value.str "z" }

def c8data : List (List String) := [["A", "B"], ["C", "D"]]

def c9model : DataFrameModel :=
  { table := oneCell (Value.str "a"), ignore_undo := true, events := [] }

/-! ### Basic lemmas: direct writes and their pointwise effect -/

theorem valid_iff (t : Table) (r : Ref) :
    t.valid r = true ↔ r.row < t.nrows ∧ r.col < t.ncols := by
  simp [Table.valid]

theorem applyDirect_nrows (m : DataFrameModel) (r : Ref) (v : Value) :
    (m.applyDirect r v).table.nrows = m.table.nrows := by
  unfold DataFrameModel.applyDirect
  split <;> rfl

theorem applyDirect_ncols (m : DataFrameModel) (r : Ref) (v : Value) :
    (m.applyDirect r v).table.ncols = m.table.ncols := by
  unfold DataFrameModel.applyDirect
  split <;> rfl

theorem applyDirect_flag (m : DataFrameModel) (r : Ref) (v : Value) :
    (m.applyDirect r v).ignore_undo = m.ignore_undo := by
  unfold DataFrameModel.applyDirect
  split <;> rfl

theorem applyDirect_cells (m : DataFrameModel) (r : Ref) (v : Value) (i j : Nat) :
    (m.applyDirect r v).table.cells i j =
      if hitR m.table.nrows m.table.ncols i j r then normApply v
      else m.table.cells i j := by
  unfold DataFrameModel.applyDirect
  by_cases hv : m.table.valid r = true
  · rw [if_pos hv]
    show (m.table.set r (normApply v)).cells i j = _
    unfold Table.set
    rcases (valid_iff m.table r).mp hv with ⟨h1, h2⟩
    show (if i = r.row ∧ j = r.col then normApply v else m.table.cells i j) = _
    by_cases hij : i = r.row ∧ j = r.col
    · rw [if_pos hij, if_pos]
      exact ⟨⟨h1, h2⟩, hij.1.symm, hij.2.symm⟩
    · rw [if_neg hij, if_neg]
      intro hh
      exact hij ⟨hh.2.1.symm, hh.2.2.symm⟩
  · rw [if_neg hv, if_neg]
    intro hh
    exact hv ((valid_iff m.table r).mpr hh.1)

theorem applySteps_nrows (steps : List (Ref × Value)) :
    ∀ m : DataFrameModel, (applySteps m steps).table.nrows = m.table.nrows := by
  induction steps with
  | nil => intro m; rfl
  | cons p ps ih =>
    intro m
    have h : applySteps m (p :: ps) = applySteps (m.applyDirect p.1 p.2) ps := rfl
    rw [h, ih, applyDirect_nrows]

theorem applySteps_ncols (steps : List (Ref × Value)) :
    ∀ m : DataFrameModel, (applySteps m steps).table.ncols = m.table.ncols := by
  induction steps with
  | nil => intro m; rfl
  | cons p ps ih =>
    intro m
    have h : applySteps m (p :: ps) = applySteps (m.applyDirect p.1 p.2) ps := rfl
    rw [h, ih, applyDirect_ncols]

theorem applySteps_flag (steps : List (Ref × Value)) :
    ∀ m : DataFrameModel, (applySteps m steps).ignore_undo = m.ignore_undo := by
  induction steps with
  | nil => intro m; rfl
  | cons p ps ih =>
    intro m
    have h : applySteps m (p :: ps) = applySteps (m.applyDirect p.1 p.2) ps := rfl
    rw [h, ih, applyDirect_flag]

theorem applySteps_cells (steps : List (Ref × Value)) :
    ∀ (m : DataFrameModel) (i j : Nat),
      (applySteps m steps).table.cells i j =
        sFinal m.table.nrows m.table.ncols i j steps (m.table.cells i j) := by
  induction steps with
  | nil => intro m i j; rfl
  | cons p ps ih =>
    intro m i j
    have h : applySteps m (p :: ps) = applySteps (m.applyDirect p.1 p.2) ps := rfl
    have h2 : sFinal m.table.nrows m.table.ncols i j (p :: ps) (m.table.cells i j) =
        sFinal m.table.nrows m.table.ncols i j ps
          (if hitR m.table.nrows m.table.ncols i j p.1 then normApply p.2
           else m.table.cells i j) := rfl
    rw [h, ih, h2, applyDirect_nrows, applyDirect_ncols, applyDirect_cells]

/-! ### Lemmas about `sFinal` -/

theorem sFinal_append (nr nc i j : Nat) (a b : List (Ref × Value)) (v : Value) :
    sFinal nr nc i j (a ++ b) v = sFinal nr nc i j b (sFinal nr nc i j a v) := by
  simp [sFinal, List.foldl_append]

theorem sFinal_no_hit (nr nc i j : Nat) (steps : List (Ref × Value)) :
    ∀ b : Value, (∀ p ∈ steps, ¬ hitR nr nc i j p.1) → sFinal nr nc i j steps b = b := by
  induction steps with
  | nil => intro b _; rfl
  | cons p ps ih =>
    intro b h
    have h1 : sFinal nr nc i j (p :: ps) b =
        sFinal nr nc i j ps (if hitR nr nc i j p.1 then normApply p.2 else b) := rfl
    rw [h1, if_neg (h p (List.mem_cons_self p ps))]
    exact ih b fun q hq => h q (List.mem_cons_of_mem p hq)

theorem sFinal_default_irrel (nr nc i j : Nat) (steps : List (Ref × Value)) :
    ∀ b1 b2 : Value, (∃ p ∈ steps, hitR nr nc i j p.1) →
      sFinal nr nc i j steps b1 = sFinal nr nc i j steps b2 := by
  induction steps with
  | nil => intro b1 b2 h; rcases h with ⟨p, hp, _⟩; cases hp
  | cons p ps ih =>
    intro b1 b2 h
    by_cases hp : hitR nr nc i j p.1
    · have h1 : ∀ b : Value, sFinal nr nc i j (p :: ps) b =
          sFinal nr nc i j ps (normApply p.2) := by
        intro b
        show sFinal nr nc i j ps (if hitR nr nc i j p.1 then normApply p.2 else b) = _
        rw [if_pos hp]
      rw [h1, h1]
    · have h1 : ∀ b : Value, sFinal nr nc i j (p :: ps) b = sFinal nr nc i j ps b := by
        intro b
        show sFinal nr nc i j ps (if hitR nr nc i j p.1 then normApply p.2 else b) = _
        rw [if_neg hp]
      rw [h1, h1]
      rcases h with ⟨q, hq, hqh⟩
      rcases List.mem_cons.mp hq with hq1 | hq2
      · exact absurd (hq1 ▸ hqh) hp
      · exact ih b1 b2 ⟨q, hq2, hqh⟩

theorem sFinal_const (nr nc i j : Nat) (w : Value) (steps : List (Ref × Value)) :
    ∀ b : Value, (∃ p ∈ steps, hitR nr nc i j p.1) →
      (∀ p ∈ steps, hitR nr nc i j p.1 → p.2 = w) →
      sFinal nr nc i j steps b = normApply w := by
  induction steps with
  | nil => intro b h _; rcases h with ⟨p, hp, _⟩; cases hp
  | cons p ps ih =>
    intro b hex hall
    by_cases hp : hitR nr nc i j p.1
    · have h1 : sFinal nr nc i j (p :: ps) b = sFinal nr nc i j ps (normApply p.2) := by
        show sFinal nr nc i j ps (if hitR nr nc i j p.1 then normApply p.2 else b) = _
        rw [if_pos hp]
      rw [h1, hall p (List.mem_cons_self p ps) hp]
      by_cases hex2 : ∃ q ∈ ps, hitR nr nc i j q.1
      · exact ih _ hex2 fun q hq hqh => hall q (List.mem_cons_of_mem p hq) hqh
      · exact sFinal_no_hit nr nc i j ps _ fun q hq hqh => hex2 ⟨q, hq, hqh⟩
    · have h1 : sFinal nr nc i j (p :: ps) b = sFinal nr nc i j ps b := by
        show sFinal nr nc i j ps (if hitR nr nc i j p.1 then normApply p.2 else b) = _
        rw [if_neg hp]
      rw [h1]
      rcases hex with ⟨q, hq, hqh⟩
      rcases List.mem_cons.mp hq with hq1 | hq2
      · exact absurd (hq1 ▸ hqh) hp
      · exact ih b ⟨q, hq2, hqh⟩ fun q2 hq2m hq2h =>
          hall q2 (List.mem_cons_of_mem p hq2m) hq2h

/-! ### Command-level lemmas -/

theorem redo_cells (c : Command) (m : DataFrameModel) (i j : Nat) :
    (c.redo m).table.cells i j =
      sFinal m.table.nrows m.table.ncols i j c.redoSteps (m.table.cells i j) :=
  applySteps_cells c.redoSteps { m with ignore_undo := true } i j

theorem undo_cells (c : Command) (m : DataFrameModel) (i j : Nat) :
    (c.undo m).table.cells i j =
      sFinal m.table.nrows m.table.ncols i j c.undoSteps (m.table.cells i j) :=
  applySteps_cells c.undoSteps { m with ignore_undo := true } i j

theorem redo_nrows (c : Command) (m : DataFrameModel) :
    (c.redo m).table.nrows = m.table.nrows :=
  applySteps_nrows c.redoSteps { m with ignore_undo := true }

theorem redo_ncols (c : Command) (m : DataFrameModel) :
    (c.redo m).table.ncols = m.table.ncols :=
  applySteps_ncols c.redoSteps { m with ignore_undo := true }

theorem undo_nrows (c : Command) (m : DataFrameModel) :
    (c.undo m).table.nrows = m.table.nrows :=
  applySteps_nrows c.undoSteps { m with ignore_undo := true }

theorem undo_ncols (c : Command) (m : DataFrameModel) :
    (c.undo m).table.ncols = m.table.ncols :=
  applySteps_ncols c.undoSteps { m with ignore_undo := true }

/-! ### `setData` under the suppression flag, and the collapse of the
`setData`-routed command bodies to the direct ones -/

theorem setData_stack_flag (m : DataFrameModel) (os : Option QUndoStack) (r : Ref)
    (v : Value) (role : Role) (h : m.ignore_undo = true) :
    (DataFrameModel.setData m os r v role).2.1 = os := by
  unfold DataFrameModel.setData
  by_cases hv : ¬ m.table.valid r = true
  · rw [if_pos hv]
  · rw [if_neg hv]
    by_cases hr : role = Role.other
    · rw [if_pos hr]
    · rw [if_neg hr, if_pos h]

theorem setData_model_flag (m : DataFrameModel) (os : Option QUndoStack) (r : Ref)
    (v : Value) (h : m.ignore_undo = true) :
    (DataFrameModel.setData m os r v Role.edit).1 = m.applyDirect r v := by
  unfold DataFrameModel.setData
  by_cases hv : ¬ m.table.valid r = true
  · rw [if_pos hv]
    show m = m.applyDirect r v
    unfold DataFrameModel.applyDirect
    rw [if_neg (by simpa using hv)]
  · rw [if_neg hv]
    have hr : ¬ (Role.edit = Role.other) := by decide
    rw [if_neg hr, if_pos h]

theorem runSteps_eq (steps : List (Ref × Value)) :
    ∀ (m : DataFrameModel) (os : Option QUndoStack), m.ignore_undo = true →
      runSteps m os steps = (applySteps m steps, os) := by
  induction steps with
  | nil => intro m os _; rfl
  | cons p ps ih =>
    intro m os h
    have h1 : runSteps m os (p :: ps) =
        runSteps (DataFrameModel.setData m os p.1 p.2 Role.edit).1
          (DataFrameModel.setData m os p.1 p.2 Role.edit).2.1 ps := rfl
    have h2 : applySteps m (p :: ps) = applySteps (m.applyDirect p.1 p.2) ps := rfl
    rw [h1, h2, setData_model_flag m os p.1 p.2 h, setData_stack_flag m os p.1 p.2 _ h]
    exact ih (m.applyDirect p.1 p.2) os (by rw [applyDirect_flag]; exact h)

theorem redoViaSetData_eq (c : Command) (m : DataFrameModel) (os : Option QUndoStack) :
    c.redoViaSetData m os = (c.redo m, os) := by
  unfold Command.redoViaSetData Command.redo
  rw [runSteps_eq c.redoSteps { m with ignore_undo := true } os rfl]

theorem undoViaSetData_eq (c : Command) (m : DataFrameModel) (os : Option QUndoStack) :
    c.undoViaSetData m os = (c.undo m, os) := by
  unfold Command.undoViaSetData Command.undo
  rw [runSteps_eq c.undoSteps { m with ignore_undo := true } os rfl]

/-! ### The undo-stack operations, unfolded -/

theorem stack_undo_eq (s : QUndoStack) (m : DataFrameModel) (h : ¬ s.idx = 0) :
    s.undo m = ({ s with idx := s.idx - 1 },
      (s.commands.getD (s.idx - 1) defaultCommand).undo m) := by
  unfold QUndoStack.undo
  rw [if_neg h]
  simp only [undoViaSetData_eq, Option.getD_some]

theorem stack_redo_eq (s : QUndoStack) (m : DataFrameModel)
    (h : ¬ s.idx = s.commands.length) :
    s.redo m = ({ s with idx := s.idx + 1 },
      (s.commands.getD s.idx defaultCommand).redo m) := by
  unfold QUndoStack.redo
  rw [if_neg h]
  simp only [redoViaSetData_eq, Option.getD_some]

theorem push_model (s : QUndoStack) (c : Command) (m : DataFrameModel) :
    (s.push c m).2 = c.redo m := rfl

/-! ### Unrolling iterated undo / redo over a stack -/

theorem undoN_eq (cs : List Command) (lim : Nat) :
    ∀ (n idx : Nat) (m : DataFrameModel), n ≤ idx → idx ≤ cs.length →
      undoN n (⟨cs, idx, lim⟩, m) =
        (⟨cs, idx - n, lim⟩, undoFold m ((cs.drop (idx - n)).take n).reverse) := by
  intro n
  induction n with
  | zero => intro idx m _ _; simp [undoN, undoFold]
  | succ n ih =>
    intro idx m hn hlen
    have hidx : ¬ (⟨cs, idx, lim⟩ : QUndoStack).idx = 0 := by
      show ¬ idx = 0; omega
    have h1 : undoN (n + 1) (⟨cs, idx, lim⟩, m) =
        undoN n ((⟨cs, idx, lim⟩ : QUndoStack).undo m) := rfl
    rw [h1, stack_undo_eq _ _ hidx]
    have h2 : ({ (⟨cs, idx, lim⟩ : QUndoStack) with idx := idx - 1 } : QUndoStack) =
        ⟨cs, idx - 1, lim⟩ := rfl
    rw [h2, ih (idx - 1) _ (by omega) (by omega)]
    congr 1
    · show (⟨cs, idx - 1 - n, lim⟩ : QUndoStack) = ⟨cs, idx - (n + 1), lim⟩
      have : idx - 1 - n = idx - (n + 1) := by omega
      rw [this]
    · show undoFold ((cs.getD (idx - 1) defaultCommand).undo m)
          ((cs.drop (idx - 1 - n)).take n).reverse =
        undoFold m ((cs.drop (idx - (n + 1))).take (n + 1)).reverse
      have hd : idx - 1 - n = idx - (n + 1) := by omega
      rw [hd]
      have hidx1 : idx - 1 < cs.length := by omega
      have hget : (cs.drop (idx - (n + 1)))[n]? = some (cs.getD (idx - 1) defaultCommand) := by
        rw [List.getElem?_drop]
        have he : idx - (n + 1) + n = idx - 1 := by omega
        rw [he, List.getElem?_eq_getElem hidx1, List.getD_eq_getElem cs defaultCommand hidx1]
      have htake : ((cs.drop (idx - (n + 1))).take (n + 1)) =
          ((cs.drop (idx - (n + 1))).take n) ++ [cs.getD (idx - 1) defaultCommand] := by
        rw [List.take_succ, hget]
        rfl
      rw [htake, List.reverse_append]
      show undoFold _ _ = undoFold m ([cs.getD (idx - 1) defaultCommand] ++
        ((cs.drop (idx - (n + 1))).take n).reverse)
      unfold undoFold
      rw [List.foldl_append]
      rfl

theorem redoN_eq (cs : List Command) (lim : Nat) :
    ∀ (n idx : Nat) (m : DataFrameModel), idx + n ≤ cs.length →
      redoN n (⟨cs, idx, lim⟩, m) =
        (⟨cs, idx + n, lim⟩, redoChain m ((cs.drop idx).take n)) := by
  intro n
  induction n with
  | zero => intro idx m _; simp [redoN, redoChain]
  | succ n ih =>
    intro idx m hlen
    have hidx : ¬ (⟨cs, idx, lim⟩ : QUndoStack).idx = (⟨cs, idx, lim⟩ : QUndoStack).commands.length := by
      show ¬ idx = cs.length; omega
    have h1 : redoN (n + 1) (⟨cs, idx, lim⟩, m) =
        redoN n ((⟨cs, idx, lim⟩ : QUndoStack).redo m) := rfl
    rw [h1, stack_redo_eq _ _ hidx]
    have h2 : ({ (⟨cs, idx, lim⟩ : QUndoStack) with idx := idx + 1 } : QUndoStack) =
        ⟨cs, idx + 1, lim⟩ := rfl
    rw [h2, ih (idx + 1) _ (by omega)]
    congr 1
    · show (⟨cs, idx + 1 + n, lim⟩ : QUndoStack) = ⟨cs, idx + (n + 1), lim⟩
      have : idx + 1 + n = idx + (n + 1) := by omega
      rw [this]
    · show redoChain ((cs.getD idx defaultCommand).redo m) ((cs.drop (idx + 1)).take n) =
        redoChain m ((cs.drop idx).take (n + 1))
      have hlt : idx < cs.length := by omega
      have hdrop : cs.drop idx = cs.getD idx defaultCommand :: cs.drop (idx + 1) := by
        rw [List.drop_eq_getElem_cons hlt, List.getD_eq_getElem cs defaultCommand hlt]
      rw [hdrop]
      rfl

/-! ### Chains of command redo / undo, pointwise -/

theorem redoChain_nrows (ws : List Command) :
    ∀ m : DataFrameModel, (redoChain m ws).table.nrows = m.table.nrows := by
  induction ws with
  | nil => intro m; rfl
  | cons c cs ih =>
    intro m
    have h : redoChain m (c :: cs) = redoChain (c.redo m) cs := rfl
    rw [h, ih, redo_nrows]

theorem redoChain_ncols (ws : List Command) :
    ∀ m : DataFrameModel, (redoChain m ws).table.ncols = m.table.ncols := by
  induction ws with
  | nil => intro m; rfl
  | cons c cs ih =>
    intro m
    have h : redoChain m (c :: cs) = redoChain (c.redo m) cs := rfl
    rw [h, ih, redo_ncols]

theorem undoFold_nrows (ws : List Command) :
    ∀ m : DataFrameModel, (undoFold m ws).table.nrows = m.table.nrows := by
  induction ws with
  | nil => intro m; rfl
  | cons c cs ih =>
    intro m
    have h : undoFold m (c :: cs) = undoFold (c.undo m) cs := rfl
    rw [h, ih, undo_nrows]

theorem undoFold_ncols (ws : List Command) :
    ∀ m : DataFrameModel, (undoFold m ws).table.ncols = m.table.ncols := by
  induction ws with
  | nil => intro m; rfl
  | cons c cs ih =>
    intro m
    have h : undoFold m (c :: cs) = undoFold (c.undo m) cs := rfl
    rw [h, ih, undo_ncols]

theorem redoChain_cells (ws : List Command) :
    ∀ (m : DataFrameModel) (i j : Nat),
      (redoChain m ws).table.cells i j =
        sFinal m.table.nrows m.table.ncols i j (catSteps Command.redoSteps ws)
          (m.table.cells i j) := by
  induction ws with
  | nil => intro m i j; rfl
  | cons c cs ih =>
    intro m i j
    have h : redoChain m (c :: cs) = redoChain (c.redo m) cs := rfl
    have h2 : catSteps Command.redoSteps (c :: cs) =
        c.redoSteps ++ catSteps Command.redoSteps cs := rfl
    rw [h, ih, h2, sFinal_append, redo_nrows, redo_ncols, redo_cells]

theorem undoFold_cells (ws : List Command) :
    ∀ (m : DataFrameModel) (i j : Nat),
      (undoFold m ws).table.cells i j =
        sFinal m.table.nrows m.table.ncols i j (catSteps Command.undoSteps ws)
          (m.table.cells i j) := by
  induction ws with
  | nil => intro m i j; rfl
  | cons c cs ih =>
    intro m i j
    have h : undoFold m (c :: cs) = undoFold (c.undo m) cs := rfl
    have h2 : catSteps Command.undoSteps (c :: cs) =
        c.undoSteps ++ catSteps Command.undoSteps cs := rfl
    rw [h, ih, h2, sFinal_append, undo_nrows, undo_ncols, undo_cells]

theorem redoChain_append (m : DataFrameModel) (a b : List Command) :
    redoChain m (a ++ b) = redoChain (redoChain m a) b := by
  unfold redoChain
  rw [List.foldl_append]

theorem catRedo_editCmds (l : List (Ref × Value × Value)) :
    catSteps Command.redoSteps (editCmds l) = l.map fun e => (e.1, e.2.2) := by
  induction l with
  | nil => rfl
  | cons e es ih =>
    show (Command.editCell e.1 e.2.1 e.2.2).redoSteps ++
        catSteps Command.redoSteps (editCmds es) = _
    rw [ih]
    rfl

theorem catUndo_editCmds (l : List (Ref × Value × Value)) :
    catSteps Command.undoSteps (editCmds l) = l.map fun e => (e.1, e.2.1) := by
  induction l with
  | nil => rfl
  | cons e es ih =>
    show (Command.editCell e.1 e.2.1 e.2.2).undoSteps ++
        catSteps Command.undoSteps (editCmds es) = _
    rw [ih]
    rfl

theorem ref_eq_of (q r : Ref) (h1 : q.row = r.row) (h2 : q.col = r.col) : q = r := by
  cases q
  cases r
  cases h1
  cases h2
  rfl

/-- Every entry of a mapped step list that hits the cell of `r` carries
the value the map gives `r` itself. -/
theorem hits_map_value (nr nc : Nat) (refs : List Ref) (f : Ref → Value) (r : Ref) :
    ∀ p ∈ refs.map (fun x => (x, f x)), hitR nr nc r.row r.col p.1 → p.2 = f r := by
  intro p hp hhit
  rcases List.mem_map.mp hp with ⟨q, _, rfl⟩
  have hq : q = r := ref_eq_of q r hhit.2.1 hhit.2.2
  rw [hq]

/-! ### Positional lemmas for pasted blocks -/

theorem rowAssigns_no_hit_row (nr nc x y i c0 : Nat) (vs : List String) (hx : ¬ x = i) :
    ∀ p ∈ rowAssigns i c0 vs, ¬ hitR nr nc x y p.1 := by
  induction vs generalizing c0 with
  | nil => intro p hp; cases hp
  | cons w ws ih =>
    intro p hp
    rcases List.mem_cons.mp hp with h | h
    · rw [h]
      intro hh
      exact hx hh.2.1.symm
    · exact ih (c0 + 1) p h

theorem rowAssigns_no_hit_ltcol (nr nc x y i c0 : Nat) (vs : List String) (hy : y < c0) :
    ∀ p ∈ rowAssigns i c0 vs, ¬ hitR nr nc x y p.1 := by
  induction vs generalizing c0 with
  | nil => intro p hp; cases hp
  | cons w ws ih =>
    intro p hp
    rcases List.mem_cons.mp hp with h | h
    · rw [h]
      intro hh
      have hc : c0 = y := hh.2.2
      omega
    · exact ih (c0 + 1) (by omega) p h

theorem blockAssigns_no_hit_ltrow (nr nc x y r0 c0 : Nat) (data : List (List String))
    (hx : x < r0) :
    ∀ p ∈ blockAssigns r0 c0 data, ¬ hitR nr nc x y p.1 := by
  induction data generalizing r0 with
  | nil => intro p hp; cases hp
  | cons row rest ih =>
    intro p hp
    have hsplit : blockAssigns r0 c0 (row :: rest) =
        rowAssigns r0 c0 row ++ blockAssigns (r0 + 1) c0 rest := rfl
    rw [hsplit] at hp
    rcases List.mem_append.mp hp with h | h
    · exact rowAssigns_no_hit_row nr nc x y r0 c0 row (by omega) p h
    · exact ih (r0 + 1) (by omega) p h

theorem blockAssigns_no_hit_gerow (nr nc x y r0 c0 : Nat) (data : List (List String))
    (hx : r0 + data.length ≤ x) :
    ∀ p ∈ blockAssigns r0 c0 data, ¬ hitR nr nc x y p.1 := by
  induction data generalizing r0 with
  | nil => intro p hp; cases hp
  | cons row rest ih =>
    intro p hp
    have hsplit : blockAssigns r0 c0 (row :: rest) =
        rowAssigns r0 c0 row ++ blockAssigns (r0 + 1) c0 rest := rfl
    rw [hsplit] at hp
    have hlen : (row :: rest).length = rest.length + 1 := rfl
    rcases List.mem_append.mp hp with h | h
    · exact rowAssigns_no_hit_row nr nc x y r0 c0 row (by rw [hlen] at hx; omega) p h
    · exact ih (r0 + 1) (by rw [hlen] at hx; omega) p h

theorem sFinal_rowAssigns_at (nr nc i c0 : Nat) (vs : List String) :
    ∀ (ci : Nat) (v : String) (b : Value), vs.get? ci = some v →
      sFinal nr nc i (c0 + ci) (rowAssigns i c0 vs) b =
        if i < nr ∧ c0 + ci < nc then normApply (Value.str v) else b := by
  induction vs generalizing c0 with
  | nil => intro ci v b h; cases h
  | cons w ws ih =>
    intro ci v b h
    have hsplit : rowAssigns i c0 (w :: ws) =
        (⟨i, c0⟩, Value.str w) :: rowAssigns i (c0 + 1) ws := rfl
    cases ci with
    | zero =>
      have hw : w = v := by
        have : some w = some v := h
        exact Option.some.inj this
      rw [hsplit]
      have hcons : sFinal nr nc i (c0 + 0) ((⟨i, c0⟩, Value.str w) :: rowAssigns i (c0 + 1) ws) b =
          sFinal nr nc i (c0 + 0) (rowAssigns i (c0 + 1) ws)
            (if hitR nr nc i (c0 + 0) (⟨i, c0⟩ : Ref) then normApply (Value.str w) else b) := rfl
      rw [hcons,
        sFinal_no_hit nr nc i (c0 + 0) (rowAssigns i (c0 + 1) ws) _
          (rowAssigns_no_hit_ltcol nr nc i (c0 + 0) i (c0 + 1) ws (by omega))]
      by_cases hb : i < nr ∧ c0 + 0 < nc
      · rw [if_pos hb, if_pos ⟨⟨hb.1, by show c0 < nc; omega⟩, rfl, by show c0 = c0 + 0; omega⟩,
          hw]
      · rw [if_neg hb, if_neg]
        intro hh
        refine hb ⟨hh.1.1, ?_⟩
        have hcc : c0 < nc := hh.1.2
        omega
    | succ ci' =>
      rw [hsplit]
      have hcons : sFinal nr nc i (c0 + (ci' + 1))
          ((⟨i, c0⟩, Value.str w) :: rowAssigns i (c0 + 1) ws) b =
          sFinal nr nc i (c0 + (ci' + 1)) (rowAssigns i (c0 + 1) ws)
            (if hitR nr nc i (c0 + (ci' + 1)) (⟨i, c0⟩ : Ref) then normApply (Value.str w)
             else b) := rfl
      rw [hcons, if_neg (by intro hh; have hcc : c0 = c0 + (ci' + 1) := hh.2.2; omega)]
      have he : c0 + (ci' + 1) = (c0 + 1) + ci' := by omega
      rw [he, ih (c0 + 1) ci' v b h]

theorem sFinal_blockAssigns_at (nr nc r0 c0 : Nat) (data : List (List String)) :
    ∀ (ri ci : Nat) (rvs : List String) (v : String) (b : Value),
      data.get? ri = some rvs → rvs.get? ci = some v →
      sFinal nr nc (r0 + ri) (c0 + ci) (blockAssigns r0 c0 data) b =
        if r0 + ri < nr ∧ c0 + ci < nc then normApply (Value.str v) else b := by
  induction data generalizing r0 with
  | nil => intro ri ci rvs v b h1 _; cases h1
  | cons row rest ih =>
    intro ri ci rvs v b h1 h2
    have hsplit : blockAssigns r0 c0 (row :: rest) =
        rowAssigns r0 c0 row ++ blockAssigns (r0 + 1) c0 rest := rfl
    rw [hsplit, sFinal_append]
    cases ri with
    | zero =>
      have hrow : row = rvs := by
        have : some row = some rvs := h1
        exact Option.some.inj this
      rw [sFinal_no_hit nr nc (r0 + 0) (c0 + ci) (blockAssigns (r0 + 1) c0 rest) _
          (blockAssigns_no_hit_ltrow nr nc (r0 + 0) (c0 + ci) (r0 + 1) c0 rest (by omega))]
      have he : r0 + 0 = r0 := by omega
      rw [he, hrow] at *
      exact sFinal_rowAssigns_at nr nc r0 c0 rvs ci v b h2
    | succ ri' =>
      rw [sFinal_no_hit nr nc (r0 + (ri' + 1)) (c0 + ci) (rowAssigns r0 c0 row) b
          (rowAssigns_no_hit_row nr nc (r0 + (ri' + 1)) (c0 + ci) r0 c0 row (by omega))]
      have he : r0 + (ri' + 1) = (r0 + 1) + ri' := by omega
      rw [he, ih (r0 + 1) ri' ci rvs v b h1 h2]

/-! ### The pipeline event stream never contains a premature
completion event -/

theorem processRemote_no_finished (env : PEnv) (cfg : PConfig) (row col : Nat)
    (src : String) : PEvent.finished ∉ (processRemote env cfg row col src).2 := by
  simp only [processRemote]
  split_ifs <;> simp

theorem processBase64_no_finished (env : PEnv) (cfg : PConfig) (cnt row col : Nat)
    (src : String) : PEvent.finished ∉ (processBase64 env cfg cnt row col src).2.1 := by
  unfold processBase64
  cases hsp : splitFirst src ',' with
  | none => simp
  | some pr =>
    obtain ⟨header, encoded⟩ := pr
    dsimp only
    cases hsd : splitStr '/' header with
    | nil => simp
    | cons a t =>
      cases t with
      | nil => simp
      | cons sub t2 =>
        dsimp only
        split_ifs <;> simp

theorem processImg_no_finished (env : PEnv) (cfg : PConfig) (cnt row col : Nat)
    (src : String) : PEvent.finished ∉ (processImg env cfg cnt row col src).2.1 := by
  unfold processImg
  split_ifs
  · exact processBase64_no_finished env cfg cnt row col src
  · exact processRemote_no_finished env cfg row col src

theorem processCellImgs_no_finished (env : PEnv) (cfg : PConfig) (row col : Nat)
    (srcs : List String) : ∀ cnt : Nat,
      PEvent.finished ∉ (processCellImgs env cfg cnt row col srcs).2.1 := by
  induction srcs with
  | nil => intro cnt; simp [processCellImgs]
  | cons src rest ih =>
    intro cnt
    have h : processCellImgs env cfg cnt row col (src :: rest) =
        ((processImg env cfg cnt row col src).1 ::
          (processCellImgs env cfg (processImg env cfg cnt row col src).2.2 row col rest).1,
         (processImg env cfg cnt row col src).2.1 ++
          (processCellImgs env cfg (processImg env cfg cnt row col src).2.2 row col rest).2.1,
         (processCellImgs env cfg (processImg env cfg cnt row col src).2.2 row col rest).2.2) := rfl
    rw [h]
    intro hmem
    rcases List.mem_append.mp hmem with h1 | h2
    · exact processImg_no_finished env cfg cnt row col src h1
    · exact ih _ h2

theorem processCell_no_finished (env : PEnv) (cfg : PConfig) (m : DataFrameModel)
    (cnt : Nat) (r : Ref) (i total : Nat) :
    PEvent.finished ∉ (processCell env cfg m cnt r i total).1 := by
  simp only [processCell]
  split_ifs
  · simp
  · simp
  · intro hmem
    rcases List.mem_append.mp hmem with h1 | h2
    · exact processCellImgs_no_finished env cfg r.row r.col _ cnt h1
    · simp at h2

theorem runCells_no_finished (env : PEnv) (cfg : PConfig) (m : DataFrameModel)
    (total : Nat) (refs : List Ref) : ∀ (i cnt : Nat),
      PEvent.finished ∉ runCells env cfg m total i cnt refs := by
  induction refs with
  | nil => intro i cnt; simp [runCells]
  | cons r rest ih =>
    intro i cnt
    have h : runCells env cfg m total i cnt (r :: rest) =
        (processCell env cfg m cnt r i total).1 ++
          runCells env cfg m total (i + 1) (processCell env cfg m cnt r i total).2 rest := rfl
    rw [h]
    intro hmem
    rcases List.mem_append.mp hmem with h1 | h2
    · exact processCell_no_finished env cfg m cnt r i total h1
    · exact ih (i + 1) _ h2

/-! ### Push without eviction, and map-level hit lemmas -/

theorem push_stack_no_evict (s : QUndoStack) (c : Command) (m : DataFrameModel)
    (hidx : s.idx ≤ s.commands.length)
    (hcap : s.limit = 0 ∨ s.idx + 1 ≤ s.limit) :
    (s.push c m).1 = ⟨s.commands.take s.idx ++ [c], s.idx + 1, s.limit⟩ := by
  unfold QUndoStack.push
  have hlen : (s.commands.take s.idx ++ [c]).length = s.idx + 1 := by
    rw [List.length_append, List.length_take]
    simp
    omega
  have hcond : ¬ (0 < s.limit ∧ s.limit < (s.commands.take s.idx ++ [c]).length) := by
    rw [hlen]
    rcases hcap with h | h
    · intro hh; omega
    · intro hh; omega
  simp only [hcond, if_false]
  show (⟨(s.commands.take s.idx ++ [c]).drop 0, s.idx - 0 + 1, s.limit⟩ : QUndoStack) = _
  rw [List.drop_zero]
  have h0 : s.idx - 0 + 1 = s.idx + 1 := by omega
  rw [h0]

theorem getD_append_singleton (l : List Command) (c : Command) (d : Command) :
    (l ++ [c]).getD l.length d = c := by
  have h1 : (l ++ [c])[l.length]? = some c := by
    rw [List.getElem?_append_right (le_refl l.length)]
    simp
  simp [List.getD, List.get?_eq_getElem?, h1]

theorem hit_of_valid (m : DataFrameModel) (r : Ref) (h : m.table.valid r = true) :
    hitR m.table.nrows m.table.ncols r.row r.col r :=
  ⟨(valid_iff m.table r).mp h, rfl, rfl⟩

theorem exists_hit_map (nr nc i j : Nat) (refs : List Ref) (f : Ref → Value) (r : Ref)
    (hmem : r ∈ refs) (hhit : hitR nr nc i j r) :
    ∃ p ∈ refs.map (fun x => (x, f x)), hitR nr nc i j p.1 :=
  ⟨(r, f r), List.mem_map_of_mem _ hmem, hhit⟩

theorem no_hit_map (nr nc i j : Nat) (refs : List Ref) (f : Ref → Value)
    (h : ∀ r ∈ refs, ¬ (r.row = i ∧ r.col = j)) :
    ∀ p ∈ refs.map (fun x => (x, f x)), ¬ hitR nr nc i j p.1 := by
  intro p hp hhit
  rcases List.mem_map.mp hp with ⟨q, hq, rfl⟩
  exact h q hq ⟨hhit.2.1, hhit.2.2⟩

theorem deleteCells_redoSteps (m : DataFrameModel) (refs : List Ref) :
    (mkDeleteCellsCommand m refs).redoSteps = refs.map fun x => (x, Value.str "") := rfl

theorem deleteCells_undoSteps (m : DataFrameModel) (refs : List Ref) :
    (mkDeleteCellsCommand m refs).undoSteps =
      refs.map fun x => (x, Value.str (m.data x)) := by
  show ((refs.map fun r => (r, m.data r)).map fun p => (p.1, Value.str p.2)) = _
  rw [List.map_map]
  rfl

theorem pasteMultiple_redoSteps (m : DataFrameModel) (refs : List Ref) (v : String) :
    (mkPasteMultipleCellsCommand m refs v).redoSteps =
      refs.map fun x => (x, Value.str v) := rfl

theorem pasteMultiple_undoSteps (m : DataFrameModel) (refs : List Ref) (v : String) :
    (mkPasteMultipleCellsCommand m refs v).undoSteps =
      refs.map fun x => (x, Value.str (m.data x)) := by
  show ((refs.map fun r => (r, m.data r)).map fun p => (p.1, Value.str p.2)) = _
  rw [List.map_map]
  rfl

/-- Scalar clipboard payload (a 1×1 parse) routes to one
`PasteMultipleCellsCommand` push. -/
theorem paste_scalar_eq (m : DataFrameModel) (s : QUndoStack) (selected : List Ref)
    (text v : String) (htext : ¬ text = "") (hparse : parseClipboard text = [[v]]) :
    paste_clipboard_data m s selected text =
      s.push (mkPasteMultipleCellsCommand m selected v) m := by
  unfold paste_clipboard_data
  rw [if_neg htext]
  simp only [hparse]
  rw [if_pos ⟨rfl, rfl⟩]
  rfl

/-! ### The claims -/

/-- C10: invoking the rewrite pipeline on an empty list of cell
references immediately emits exactly one progress event with value 100
and exactly one completion event and nothing else (in particular no
cell-update, log or error event); the pipeline emits events only and
never mutates the model, so the table is unchanged. -/
theorem C10_empty_run (env : PEnv) (cfg : PConfig) (m : DataFrameModel) :
    ImageProcessor.run env cfg m [] = [PEvent.progress 100, PEvent.finished] := rfl

/-- C9: while a command's undo or redo mutation is executing the
suppression flag is set, and `setData` never pushes onto (or otherwise
touches) the undo stack while the flag is set; consequently the
`setData`-routed undo and redo bodies of every command leave the stack
untouched, so no re-entrant push during undo/redo can occur. -/
theorem C9_no_reentrant_push (m : DataFrameModel) (os : Option QUndoStack) (r : Ref)
    (v : Value) (role : Role) (c : Command) (h : m.ignore_undo = true) :
    (DataFrameModel.setData m os r v role).2.1 = os ∧
    (c.undoViaSetData m os).2 = os ∧ (c.redoViaSetData m os).2 = os :=
  ⟨setData_stack_flag m os r v role h,
   by rw [undoViaSetData_eq], by rw [redoViaSetData_eq]⟩

/-- Witness for C9 at a concrete state with the flag set. -/
theorem C9_no_reentrant_push_witness :
    (DataFrameModel.setData c9model (some stack50) ⟨0, 0⟩ (Value.str "b") Role.edit).2.1
      = some stack50 ∧
    (c1cmd.undoViaSetData c9model (some stack50)).2 = some stack50 ∧
    (c1cmd.redoViaSetData c9model (some stack50)).2 = some stack50 :=
  C9_no_reentrant_push c9model (some stack50) ⟨0, 0⟩ (Value.str "b") Role.edit c1cmd rfl

/-- C1 counterexample: `QUndoStack.push` does not merely record the
command — it executes the command's forward mutation. Pushing an
`EditCell` command onto an empty stack changes the table (from `"a"` to
`"b"` at `(0,0)`), so the mutation had NOT already been applied by the
caller before push. -/
theorem C1_push_counterexample :
    (stack50.push c1cmd c1model).2.table.cells 0 0 ≠ c1model.table.cells 0 0 := by
  decide

/-- C1 (amended): on the editor's set-cell path (valid index, flag
clear, values differ, stack present), `setData` builds the `EditCell`
command from the still-unmutated table and hands the model to `push`;
`push` itself invokes `cmd.redo()` — which applies the mutation — and
then records the command, dropping the commands after the pointer and
evicting the oldest ones past the bound. -/
theorem C1_push_amended (m : DataFrameModel) (s : QUndoStack) (r : Ref) (v : Value)
    (hflag : m.ignore_undo = false) (hvalid : m.table.valid r = true)
    (hdiff : valuesDiffer (m.table.cells r.row r.col) (normInput v) = true) :
    DataFrameModel.setData m (some s) r v Role.edit =
      ((Command.editCell r (m.table.cells r.row r.col) (normInput v)).redo m,
       some (s.push (Command.editCell r (m.table.cells r.row r.col) (normInput v)) m).1,
       true) ∧
    (s.push (Command.editCell r (m.table.cells r.row r.col) (normInput v)) m).2 =
      (Command.editCell r (m.table.cells r.row r.col) (normInput v)).redo m ∧
    (s.push (Command.editCell r (m.table.cells r.row r.col) (normInput v)) m).1.commands =
      (s.commands.take s.idx ++ [Command.editCell r (m.table.cells r.row r.col) (normInput v)]).drop
        (if 0 < s.limit ∧
            s.limit < (s.commands.take s.idx ++
              [Command.editCell r (m.table.cells r.row r.col) (normInput v)]).length
         then (s.commands.take s.idx ++
              [Command.editCell r (m.table.cells r.row r.col) (normInput v)]).length - s.limit
         else 0) := by
  refine ⟨?_, rfl, rfl⟩
  unfold DataFrameModel.setData
  rw [if_neg (by simp [hvalid]), if_neg (by decide : ¬ (Role.edit = Role.other)),
    if_neg (by simp [hflag])]
  simp only [hdiff, if_true]
  rfl

/-- Witness for C1 (amended) at a concrete edit. -/
theorem C1_push_amended_witness :
    DataFrameModel.setData c1model (some stack50) ⟨0, 0⟩ (Value.str "b") Role.edit =
      ((Command.editCell ⟨0, 0⟩ (c1model.table.cells 0 0) (normInput (Value.str "b"))).redo
          c1model,
       some (stack50.push
          (Command.editCell ⟨0, 0⟩ (c1model.table.cells 0 0) (normInput (Value.str "b")))
          c1model).1,
       true) :=
  (C1_push_amended c1model stack50 ⟨0, 0⟩ (Value.str "b") rfl (by decide) (by decide)).1

/-- C6 counterexample: a cell holding the literal empty string, edited
with the empty string: the current value equals the new value and both
are blank-like, yet `setData` is NOT a no-op — the comparison treats the
stored `""` (not NA) as different from the NA-normalized input, so the
table changes to NA and a command is pushed. -/
theorem C6_noop_counterexample :
    c6model.table.cells 0 0 = Value.str "" ∧
    (DataFrameModel.setData c6model (some stack50) ⟨0, 0⟩ (Value.str "") Role.edit).1.table.cells 0 0
      = Value.na ∧
    ((DataFrameModel.setData c6model (some stack50) ⟨0, 0⟩ (Value.str "")
        Role.edit).2.1.getD stack50).commands.length = 1 := by
  decide

/-- C6 (amended): for an in-bounds cell, setting is a no-op — `False`
returned, no command pushed, model (table and events) unchanged — if and
only if the code's NA-safe comparison of the old value with the
blank-normalized input finds them equal. In particular `current absent,
new empty string` is a no-op, but a cell storing the literal empty
string compared with an empty-string input is treated as different. -/
theorem C6_noop_amended (m : DataFrameModel) (os : Option QUndoStack) (r : Ref) (v : Value)
    (hflag : m.ignore_undo = false)
    (heq : valuesDiffer (m.table.cells r.row r.col) (normInput v) = false) :
    DataFrameModel.setData m os r v Role.edit = (m, os, false) := by
  unfold DataFrameModel.setData
  by_cases hv : ¬ m.table.valid r = true
  · rw [if_pos hv]
  · rw [if_neg hv, if_neg (by decide : ¬ (Role.edit = Role.other)), if_neg (by simp [hflag])]
    simp only [heq, Bool.false_eq_true, if_false]

/-- Witness for C6 (amended): current value absent, new value the empty
string — a no-op. -/
theorem C6_noop_amended_witness :
    DataFrameModel.setData c6wmodel (some stack50) ⟨0, 0⟩ (Value.str "") Role.edit =
      (c6wmodel, some stack50, false) :=
  C6_noop_amended c6wmodel (some stack50) ⟨0, 0⟩ (Value.str "") rfl (by decide)

/-- C5 counterexample: deleting a cell that holds the literal empty
string and undoing does not restore the empty string — the capture uses
the display rendering (which collapses both blanks to `""`) and the
restore maps `""` to NA, so the cell comes back as the absent value: the
empty-string vs absent distinction is not preserved. -/
theorem C5_delete_undo_counterexample :
    c5model.table.cells 0 0 = Value.str "" ∧
    ((clear_selected_cells c5model stack50 [⟨0, 0⟩]).1.undo
        (clear_selected_cells c5model stack50 [⟨0, 0⟩]).2).2.table.cells 0 0 = Value.na := by
  decide

/-- C5 (amended): a delete over any set of in-bounds cells pushes
exactly one `DeleteCells` command (here stated below the history bound,
as in the application); its redo empties every selected cell to NA, and
one undo restores every selected cell to the blank-normalization of its
captured display value — prior nonblank strings return exactly, while
prior empty-string and prior-absent values both return as absent — and
leaves every unselected cell untouched. -/
theorem C5_delete_undo_amended (m : DataFrameModel) (s : QUndoStack) (refs : List Ref)
    (hvalid : ∀ r ∈ refs, m.table.valid r = true)
    (hidx : s.idx ≤ s.commands.length)
    (hcap : s.limit = 0 ∨ s.idx + 1 ≤ s.limit) :
    (clear_selected_cells m s refs).1.commands =
        s.commands.take s.idx ++ [mkDeleteCellsCommand m refs] ∧
    (clear_selected_cells m s refs).1.idx = s.idx + 1 ∧
    (∀ r ∈ refs, (clear_selected_cells m s refs).2.table.cells r.row r.col = Value.na) ∧
    (∀ r ∈ refs,
      ((clear_selected_cells m s refs).1.undo
          (clear_selected_cells m s refs).2).2.table.cells r.row r.col
        = normApply (Value.str (m.data r))) ∧
    (∀ i j, (∀ r ∈ refs, ¬ (r.row = i ∧ r.col = j)) →
      ((clear_selected_cells m s refs).1.undo
          (clear_selected_cells m s refs).2).2.table.cells i j
        = m.table.cells i j) := by
  have hstk : (clear_selected_cells m s refs).1 =
      ⟨s.commands.take s.idx ++ [mkDeleteCellsCommand m refs], s.idx + 1, s.limit⟩ :=
    push_stack_no_evict s _ m hidx hcap
  have hmodel : (clear_selected_cells m s refs).2 =
      (mkDeleteCellsCommand m refs).redo m := rfl
  have hl : (s.commands.take s.idx).length = s.idx := by
    rw [List.length_take]
    omega
  have hundo : ((clear_selected_cells m s refs).1.undo
      (clear_selected_cells m s refs).2).2 =
      (mkDeleteCellsCommand m refs).undo ((mkDeleteCellsCommand m refs).redo m) := by
    rw [hstk, hmodel]
    rw [stack_undo_eq _ _ (by show ¬ s.idx + 1 = 0; omega)]
    show ((s.commands.take s.idx ++ [mkDeleteCellsCommand m refs]).getD (s.idx + 1 - 1)
        defaultCommand).undo _ = _
    have he : s.idx + 1 - 1 = (s.commands.take s.idx).length := by rw [hl]; omega
    rw [he, getD_append_singleton]
  refine ⟨by rw [hstk], by rw [hstk], ?_, ?_, ?_⟩
  · intro r hr
    rw [hmodel, redo_cells, deleteCells_redoSteps]
    rw [sFinal_const m.table.nrows m.table.ncols r.row r.col (Value.str "")
        (refs.map fun x => (x, Value.str "")) (m.table.cells r.row r.col)
        (exists_hit_map m.table.nrows m.table.ncols r.row r.col refs
          (fun _ => Value.str "") r hr (hit_of_valid m r (hvalid r hr)))
        (hits_map_value m.table.nrows m.table.ncols refs (fun _ => Value.str "") r)]
    decide
  · intro r hr
    rw [hundo, undo_cells, deleteCells_undoSteps, redo_nrows, redo_ncols]
    rw [sFinal_const m.table.nrows m.table.ncols r.row r.col (Value.str (m.data r))
        (refs.map fun x => (x, Value.str (m.data x)))
        (((mkDeleteCellsCommand m refs).redo m).table.cells r.row r.col)
        (exists_hit_map m.table.nrows m.table.ncols r.row r.col refs
          (fun x => Value.str (m.data x)) r hr (hit_of_valid m r (hvalid r hr)))
        (hits_map_value m.table.nrows m.table.ncols refs (fun x => Value.str (m.data x)) r)]
  · intro i j hnone
    rw [hundo, undo_cells, deleteCells_undoSteps, redo_nrows, redo_ncols]
    rw [sFinal_no_hit m.table.nrows m.table.ncols i j
        (refs.map fun x => (x, Value.str (m.data x))) _
        (no_hit_map m.table.nrows m.table.ncols i j refs (fun x => Value.str (m.data x)) hnone)]
    rw [redo_cells, deleteCells_redoSteps]
    rw [sFinal_no_hit m.table.nrows m.table.ncols i j
        (refs.map fun x => (x, Value.str "")) _
        (no_hit_map m.table.nrows m.table.ncols i j refs (fun _ => Value.str "") hnone)]

/-- Witness for C5 (amended): a delete of three cells of a 2×2 table
pushes one command, and one undo restores the captured value of cell
`(0,1)`. -/
theorem C5_delete_undo_amended_witness :
    (clear_selected_cells c5wmodel stack50 c5wrefs).1.commands =
        stack50.commands.take stack50.idx ++ [mkDeleteCellsCommand c5wmodel c5wrefs] ∧
    ((clear_selected_cells c5wmodel stack50 c5wrefs).1.undo
        (clear_selected_cells c5wmodel stack50 c5wrefs).2).2.table.cells 0 1
      = normApply (Value.str (c5wmodel.data ⟨0, 1⟩)) :=
  ⟨(C5_delete_undo_amended c5wmodel stack50 c5wrefs (by decide) (by decide)
      (by right; decide)).1,
   (C5_delete_undo_amended c5wmodel stack50 c5wrefs (by decide) (by decide)
      (by right; decide)).2.2.2.1 ⟨0, 1⟩ (by decide)⟩

/-- C7 counterexample: the clipboard payload `"(필드 값 없음)"` parses
as the 1×1 scalar case, but broadcasting it does NOT write that value
into the selected cell — the command application maps the sentinel to
NA, so the cell ends up absent rather than holding the pasted value. -/
theorem C7_broadcast_counterexample :
    parseClipboard blankSentinel = [[blankSentinel]] ∧
    (paste_clipboard_data c7model stack50 [⟨0, 0⟩] blankSentinel).2.table.cells 0 0
      = Value.na ∧
    Value.na ≠ Value.str blankSentinel := by
  decide

/-- C7 (amended): a clipboard payload that parses to exactly one row and
one column broadcasts via exactly one pushed `PasteMultipleCells`
command; every selected in-bounds cell receives the blank-normalized
payload value (the value itself unless it is the empty string or the
blank sentinel, which are stored as absent), and one undo restores every
selected cell to the blank-normalization of its captured display value,
leaving unselected cells untouched. -/
theorem C7_broadcast_amended (m : DataFrameModel) (s : QUndoStack) (selected : List Ref)
    (text v : String)
    (htext : ¬ text = "")
    (hparse : parseClipboard text = [[v]])
    (hvalid : ∀ r ∈ selected, m.table.valid r = true)
    (hidx : s.idx ≤ s.commands.length)
    (hcap : s.limit = 0 ∨ s.idx + 1 ≤ s.limit) :
    (paste_clipboard_data m s selected text).1.commands =
        s.commands.take s.idx ++ [mkPasteMultipleCellsCommand m selected v] ∧
    (paste_clipboard_data m s selected text).1.idx = s.idx + 1 ∧
    (∀ r ∈ selected,
      (paste_clipboard_data m s selected text).2.table.cells r.row r.col
        = normApply (Value.str v)) ∧
    (∀ r ∈ selected,
      ((paste_clipboard_data m s selected text).1.undo
          (paste_clipboard_data m s selected text).2).2.table.cells r.row r.col
        = normApply (Value.str (m.data r))) ∧
    (∀ i j, (∀ r ∈ selected, ¬ (r.row = i ∧ r.col = j)) →
      ((paste_clipboard_data m s selected text).1.undo
          (paste_clipboard_data m s selected text).2).2.table.cells i j
        = m.table.cells i j) := by
  have heq := paste_scalar_eq m s selected text v htext hparse
  have hstk : (paste_clipboard_data m s selected text).1 =
      ⟨s.commands.take s.idx ++ [mkPasteMultipleCellsCommand m selected v],
       s.idx + 1, s.limit⟩ := by
    rw [heq]
    exact push_stack_no_evict s _ m hidx hcap
  have hmodel : (paste_clipboard_data m s selected text).2 =
      (mkPasteMultipleCellsCommand m selected v).redo m := by
    rw [heq]
    rfl
  have hl : (s.commands.take s.idx).length = s.idx := by
    rw [List.length_take]
    omega
  have hundo : ((paste_clipboard_data m s selected text).1.undo
      (paste_clipboard_data m s selected text).2).2 =
      (mkPasteMultipleCellsCommand m selected v).undo
        ((mkPasteMultipleCellsCommand m selected v).redo m) := by
    rw [hstk, hmodel]
    rw [stack_undo_eq _ _ (by show ¬ s.idx + 1 = 0; omega)]
    show ((s.commands.take s.idx ++ [mkPasteMultipleCellsCommand m selected v]).getD
        (s.idx + 1 - 1) defaultCommand).undo _ = _
    have he : s.idx + 1 - 1 = (s.commands.take s.idx).length := by rw [hl]; omega
    rw [he, getD_append_singleton]
  refine ⟨by rw [hstk], by rw [hstk], ?_, ?_, ?_⟩
  · intro r hr
    rw [hmodel, redo_cells, pasteMultiple_redoSteps]
    rw [sFinal_const m.table.nrows m.table.ncols r.row r.col (Value.str v)
        (selected.map fun x => (x, Value.str v)) (m.table.cells r.row r.col)
        (exists_hit_map m.table.nrows m.table.ncols r.row r.col selected
          (fun _ => Value.str v) r hr (hit_of_valid m r (hvalid r hr)))
        (hits_map_value m.table.nrows m.table.ncols selected (fun _ => Value.str v) r)]
  · intro r hr
    rw [hundo, undo_cells, pasteMultiple_undoSteps, redo_nrows, redo_ncols]
    rw [sFinal_const m.table.nrows m.table.ncols r.row r.col (Value.str (m.data r))
        (selected.map fun x => (x, Value.str (m.data x)))
        (((mkPasteMultipleCellsCommand m selected v).redo m).table.cells r.row r.col)
        (exists_hit_map m.table.nrows m.table.ncols r.row r.col selected
          (fun x => Value.str (m.data x)) r hr (hit_of_valid m r (hvalid r hr)))
        (hits_map_value m.table.nrows m.table.ncols selected
          (fun x => Value.str (m.data x)) r)]
  · intro i j hnone
    rw [hundo, undo_cells, pasteMultiple_undoSteps, redo_nrows, redo_ncols]
    rw [sFinal_no_hit m.table.nrows m.table.ncols i j
        (selected.map fun x => (x, Value.str (m.data x))) _
        (no_hit_map m.table.nrows m.table.ncols i j selected
          (fun x => Value.str (m.data x)) hnone)]
    rw [redo_cells, pasteMultiple_redoSteps]
    rw [sFinal_no_hit m.table.nrows m.table.ncols i j
        (selected.map fun x => (x, Value.str v)) _
        (no_hit_map m.table.nrows m.table.ncols i j selected (fun _ => Value.str v) hnone)]

/-- Witness for C7 (amended): the scalar payload `"val"` broadcast into
a 3×3 selection writes it to cell `(1,1)`, and one undo restores the
captured value there. -/
theorem C7_broadcast_amended_witness :
    (paste_clipboard_data c7wmodel stack50 c7wrefs "val").1.commands =
        stack50.commands.take stack50.idx ++
          [mkPasteMultipleCellsCommand c7wmodel c7wrefs "val"] ∧
    (paste_clipboard_data c7wmodel stack50 c7wrefs "val").2.table.cells 1 1
      = normApply (Value.str "val") ∧
    ((paste_clipboard_data c7wmodel stack50 c7wrefs "val").1.undo
        (paste_clipboard_data c7wmodel stack50 c7wrefs "val").2).2.table.cells 1 1
      = normApply (Value.str (c7wmodel.data ⟨1, 1⟩)) :=
  ⟨(C7_broadcast_amended c7wmodel stack50 c7wrefs "val" "val" (by decide) (by decide)
      (by decide) (by decide) (by right; decide)).1,
   (C7_broadcast_amended c7wmodel stack50 c7wrefs "val" "val" (by decide) (by decide)
      (by decide) (by decide) (by right; decide)).2.2.1 ⟨1, 1⟩ (by decide),
   (C7_broadcast_amended c7wmodel stack50 c7wrefs "val" "val" (by decide) (by decide)
      (by decide) (by decide) (by right; decide)).2.2.2.1 ⟨1, 1⟩ (by decide)⟩

/-- C8: a rectangular R×C paste anchored at `start` writes exactly the
block cells that fall within the table's bounds (each receives the
blank-normalized pasted string); block cells outside the bounds are
skipped silently — their coordinates keep their previous content — and
rows entirely outside the block range are never touched. The operation
is total: no error is raised. -/
theorem C8_paste_clipping (m : DataFrameModel) (paste_data : List (List String))
    (start : Ref) (olds : List (Ref × String)) (ri ci : Nat) (rvs : List String)
    (v : String) (h1 : paste_data.get? ri = some rvs) (h2 : rvs.get? ci = some v) :
    ((Command.pasteCells paste_data start olds).redo m).table.cells
        (start.row + ri) (start.col + ci)
      = (if start.row + ri < m.table.nrows ∧ start.col + ci < m.table.ncols
         then normApply (Value.str v)
         else m.table.cells (start.row + ri) (start.col + ci)) ∧
    (∀ x y, (x < start.row ∨ start.row + paste_data.length ≤ x) →
      ((Command.pasteCells paste_data start olds).redo m).table.cells x y
        = m.table.cells x y) := by
  constructor
  · rw [redo_cells]
    show sFinal m.table.nrows m.table.ncols (start.row + ri) (start.col + ci)
        (blockAssigns start.row start.col paste_data)
        (m.table.cells (start.row + ri) (start.col + ci)) = _
    exact sFinal_blockAssigns_at m.table.nrows m.table.ncols start.row start.col
      paste_data ri ci rvs v _ h1 h2
  · intro x y hxy
    rw [redo_cells]
    show sFinal m.table.nrows m.table.ncols x y
        (blockAssigns start.row start.col paste_data) (m.table.cells x y) = _
    rcases hxy with h | h
    · exact sFinal_no_hit m.table.nrows m.table.ncols x y _ _
        (blockAssigns_no_hit_ltrow m.table.nrows m.table.ncols x y start.row start.col
          paste_data h)
    · exact sFinal_no_hit m.table.nrows m.table.ncols x y _ _
        (blockAssigns_no_hit_gerow m.table.nrows m.table.ncols x y start.row start.col
          paste_data h)

/-- Witness for C8: a 2×2 block pasted at `(2,2)` of a 3×3 table writes
the one in-bounds cell `(2,2)`, leaves the out-of-bounds block cell
`(3,3)` as it was, and leaves row 0 untouched. -/
theorem C8_paste_clipping_witness :
    ((Command.pasteCells c8data ⟨2, 2⟩ []).redo c8model).table.cells (2 + 0) (2 + 0)
      = (if 2 + 0 < c8model.table.nrows ∧ 2 + 0 < c8model.table.ncols
         then normApply (Value.str "A") else c8model.table.cells (2 + 0) (2 + 0)) ∧
    ((Command.pasteCells c8data ⟨2, 2⟩ []).redo c8model).table.cells (2 + 1) (2 + 1)
      = (if 2 + 1 < c8model.table.nrows ∧ 2 + 1 < c8model.table.ncols
         then normApply (Value.str "D") else c8model.table.cells (2 + 1) (2 + 1)) ∧
    ((Command.pasteCells c8data ⟨2, 2⟩ []).redo c8model).table.cells 0 0
      = c8model.table.cells 0 0 :=
  ⟨(C8_paste_clipping c8model c8data ⟨2, 2⟩ [] 0 0 ["A", "B"] "A"
      (by decide) (by decide)).1,
   (C8_paste_clipping c8model c8data ⟨2, 2⟩ [] 1 1 ["C", "D"] "D"
      (by decide) (by decide)).1,
   (C8_paste_clipping c8model c8data ⟨2, 2⟩ [] 0 0 ["A", "B"] "A"
      (by decide) (by decide)).2 0 0 (Or.inl (by decide))⟩

/-- C2 counterexample: with downloading enabled, a run over one cell
holding one remote image whose fetch fails emits the cell update with
the src UNCHANGED — the rewrite to `{new_path}/{filename}` does not take
effect, because the `except` around the download also skips the rewrite
statement. -/
theorem C2_rewrite_counterexample :
    ImageProcessor.run (selfParse false) cfgDl c2model [⟨0, 0⟩] =
      [PEvent.log (Msg.urlImgFail 0 0), PEvent.error (Msg.urlImgFail 0 0),
       PEvent.updateCell 0 0 ["https://h/a.png"], PEvent.progress 100, PEvent.finished] ∧
    ¬ ("https://h/a.png" = pjoin cfgDl.new_path "a.png") := by
  decide

/-- C2 (amended): for a remote reference with a derivable file name and
downloading enabled, the rewrite happens exactly when the fetch
succeeds: on success the src becomes `{new_path}/{filename}` (with the
download and rewrite logged); on fetch failure the failure is logged and
reported and the reference is skipped entirely — its src is left
unmodified — while the rest of the cell still processes. -/
theorem C2_rewrite_amended (env : PEnv) (cfg : PConfig) (row col : Nat) (src : String)
    (hdl : cfg.download_images = true)
    (hname : ¬ basename (urlPath (fixScheme src)) = "") :
    (env.fetchOk (fixScheme src) = true →
      processRemote env cfg row col src =
        (pjoin cfg.new_path (withJpg (basename (urlPath (fixScheme src)))),
         (if schemeOf src = "" then [PEvent.log (Msg.fixedScheme (fixScheme src))]
          else []) ++
           [PEvent.log (Msg.downloaded row col
              (pjoin cfg.download_folder (withJpg (basename (urlPath (fixScheme src)))))),
            PEvent.log (Msg.rewroteSrc row col (fixScheme src)
              (pjoin cfg.new_path (withJpg (basename (urlPath (fixScheme src))))))])) ∧
    (env.fetchOk (fixScheme src) = false →
      processRemote env cfg row col src =
        (src,
         (if schemeOf src = "" then [PEvent.log (Msg.fixedScheme (fixScheme src))]
          else []) ++
           [PEvent.log (Msg.urlImgFail row col), PEvent.error (Msg.urlImgFail row col)])) := by
  constructor
  · intro hfetch
    simp only [processRemote]
    split_ifs <;> simp_all
  · intro hfetch
    simp only [processRemote]
    split_ifs <;> simp_all

/-- Witness for C2 (amended) on the URL `https://h/a.png`: rewrite on
fetch success, skip on fetch failure. -/
theorem C2_rewrite_amended_witness :
    processRemote (selfParse true) cfgDl 0 0 "https://h/a.png" =
      (pjoin cfgDl.new_path (withJpg (basename (urlPath (fixScheme "https://h/a.png")))),
       (if schemeOf "https://h/a.png" = ""
        then [PEvent.log (Msg.fixedScheme (fixScheme "https://h/a.png"))] else []) ++
         [PEvent.log (Msg.downloaded 0 0 (pjoin cfgDl.download_folder
            (withJpg (basename (urlPath (fixScheme "https://h/a.png")))))),
          PEvent.log (Msg.rewroteSrc 0 0 (fixScheme "https://h/a.png")
            (pjoin cfgDl.new_path
              (withJpg (basename (urlPath (fixScheme "https://h/a.png"))))))]) ∧
    processRemote (selfParse false) cfgDl 0 0 "https://h/a.png" =
      ("https://h/a.png",
       (if schemeOf "https://h/a.png" = ""
        then [PEvent.log (Msg.fixedScheme (fixScheme "https://h/a.png"))] else []) ++
         [PEvent.log (Msg.urlImgFail 0 0), PEvent.error (Msg.urlImgFail 0 0)]) :=
  ⟨(C2_rewrite_amended (selfParse true) cfgDl 0 0 "https://h/a.png" rfl
      (by decide)).1 (by decide),
   (C2_rewrite_amended (selfParse false) cfgDl 0 0 "https://h/a.png" rfl
      (by decide)).2 (by decide)⟩

/-- C3 counterexample: a run over one non-empty list whose single cell
has no text emits no progress event at all — in particular not the
claimed `floor(1/1*100) = 100` — only the completion event. -/
theorem C3_progress_counterexample :
    ImageProcessor.run (selfParse true) cfgNoDl c3model [⟨0, 0⟩] = [PEvent.finished] ∧
    PEvent.progress 100 ∉ ImageProcessor.run (selfParse true) cfgNoDl c3model [⟨0, 0⟩] := by
  decide

/-- C3 (amended): every non-empty run emits exactly one completion
event, and equals the concatenation of the per-cell event blocks
followed by `finished`; a cell that is empty or has no img elements
contributes no events at all (no progress), while a processed cell's
block ends with its `update_cell` followed by `progress(i*100/total)`
for its 1-based position `i`. -/
theorem C3_progress_amended (env : PEnv) (cfg : PConfig) (m : DataFrameModel)
    (refs : List Ref) (hne : refs ≠ []) :
    (ImageProcessor.run env cfg m refs).count PEvent.finished = 1 ∧
    ImageProcessor.run env cfg m refs =
      runCells env cfg m refs.length 1 0 refs ++ [PEvent.finished] ∧
    (∀ (cnt : Nat) (r : Ref) (i total : Nat),
      m.data r = "" ∨ env.parseImgs (m.data r) = [] →
      processCell env cfg m cnt r i total = ([], cnt)) ∧
    (∀ (cnt : Nat) (r : Ref) (i total : Nat),
      ¬ m.data r = "" → ¬ env.parseImgs (m.data r) = [] →
      processCell env cfg m cnt r i total =
        ((processCellImgs env cfg cnt r.row r.col (env.parseImgs (m.data r))).2.1 ++
          [PEvent.updateCell r.row r.col
            (processCellImgs env cfg cnt r.row r.col (env.parseImgs (m.data r))).1,
           PEvent.progress (i * 100 / total)],
         (processCellImgs env cfg cnt r.row r.col (env.parseImgs (m.data r))).2.2)) := by
  have hlen : ¬ refs.length = 0 := by
    intro h
    exact hne (List.length_eq_zero.mp h)
  have hrun : ImageProcessor.run env cfg m refs =
      runCells env cfg m refs.length 1 0 refs ++ [PEvent.finished] := by
    unfold ImageProcessor.run
    rw [if_neg hlen]
  refine ⟨?_, hrun, ?_, ?_⟩
  · rw [hrun, List.count_append]
    rw [List.count_eq_zero.mpr (runCells_no_finished env cfg m refs.length refs 1 0)]
    simp
  · intro cnt r i total h
    rcases h with h | h
    · simp only [processCell]
      rw [if_pos h]
    · simp only [processCell]
      by_cases hd : m.data r = ""
      · rw [if_pos hd]
      · rw [if_neg hd, if_pos h]
  · intro cnt r i total h1 h2
    simp only [processCell]
    rw [if_neg h1, if_neg h2]

/-- Witness for C3 (amended): the 5-cell run whose third cell holds a
malformed embedded-image reference emits exactly one completion event;
the full stream shows progress 20/40/60/80/100 after the five processed
cells, one error for cell 3 (whose reference stays unrewritten in its
emitted update), and rewritten updates for the other four. -/
theorem C3_progress_amended_witness :
    (ImageProcessor.run (selfParse true) cfgNoDl c3fiveModel c3fiveRefs).count
        PEvent.finished = 1 ∧
    ImageProcessor.run (selfParse true) cfgNoDl c3fiveModel c3fiveRefs =
      [PEvent.log (Msg.rewroteSrc 0 0 "https://h/a.png" "p/a.png"),
       PEvent.updateCell 0 0 ["p/a.png"], PEvent.progress 20,
       PEvent.log (Msg.rewroteSrc 1 0 "https://h/a.png" "p/a.png"),
       PEvent.updateCell 1 0 ["p/a.png"], PEvent.progress 40,
       PEvent.log (Msg.base64Fail 2 0), PEvent.error (Msg.base64Fail 2 0),
       PEvent.updateCell 2 0 ["data:imagebroken"], PEvent.progress 60,
       PEvent.log (Msg.rewroteSrc 3 0 "https://h/a.png" "p/a.png"),
       PEvent.updateCell 3 0 ["p/a.png"], PEvent.progress 80,
       PEvent.log (Msg.rewroteSrc 4 0 "https://h/a.png" "p/a.png"),
       PEvent.updateCell 4 0 ["p/a.png"], PEvent.progress 100,
       PEvent.finished] ∧
    (ImageProcessor.run (selfParse true) cfgNoDl c3fiveModel c3fiveRefs).count
        (PEvent.error (Msg.base64Fail 2 0)) = 1 :=
  ⟨(C3_progress_amended (selfParse true) cfgNoDl c3fiveModel c3fiveRefs (by decide)).1,
   by decide, by decide⟩

/-! ### Redo-after-undo over a window of edit commands -/

/-- Undoing then redoing a window of `EditCell` commands restores every
cell of a state that was produced by redoing that same window: the redos
overwrite whatever the undos wrote at the touched cells, and untouched
cells pass through both phases unchanged. -/
theorem redo_after_undo_window (B : DataFrameModel) (l : List (Ref × Value × Value))
    (i j : Nat) :
    (redoChain (undoFold (redoChain B (editCmds l)) (editCmds l).reverse)
        (editCmds l)).table.cells i j
      = (redoChain B (editCmds l)).table.cells i j := by
  have hrev : (editCmds l).reverse = editCmds l.reverse := by
    unfold editCmds
    simp
  by_cases hhit : ∃ e ∈ l, hitR B.table.nrows B.table.ncols i j e.1
  · rw [redoChain_cells, redoChain_cells, undoFold_nrows, undoFold_ncols,
      redoChain_nrows, redoChain_ncols, catRedo_editCmds]
    exact sFinal_default_irrel B.table.nrows B.table.ncols i j _ _ _
      (by
        rcases hhit with ⟨e, he, hh⟩
        exact ⟨(e.1, e.2.2), List.mem_map_of_mem _ he, hh⟩)
  · have hnoR : ∀ p ∈ l.map (fun e => (e.1, e.2.2)),
        ¬ hitR B.table.nrows B.table.ncols i j p.1 := by
      intro p hp hph
      rcases List.mem_map.mp hp with ⟨e, he, rfl⟩
      exact hhit ⟨e, he, hph⟩
    have hnoU : ∀ p ∈ l.reverse.map (fun e => (e.1, e.2.1)),
        ¬ hitR B.table.nrows B.table.ncols i j p.1 := by
      intro p hp hph
      rcases List.mem_map.mp hp with ⟨e, he, rfl⟩
      exact hhit ⟨e, List.mem_reverse.mp he, hph⟩
    rw [redoChain_cells, undoFold_nrows, undoFold_ncols, redoChain_nrows, redoChain_ncols,
      catRedo_editCmds, sFinal_no_hit B.table.nrows B.table.ncols i j _ _ hnoR,
      undoFold_cells, redoChain_nrows, redoChain_ncols, hrev, catUndo_editCmds,
      sFinal_no_hit B.table.nrows B.table.ncols i j _ _ hnoU]

/-- N undos followed by N redos over a history of `EditCell` commands
reproduce the pre-undo table state at every cell. -/
theorem undoN_redoN_replay (t : Table) (es : List (Ref × Value × Value)) (N lim : Nat)
    (hN : N ≤ es.length) (i j : Nat) :
    (redoN N (undoN N (⟨editCmds es, (editCmds es).length, lim⟩,
        redoChain (model0 t) (editCmds es)))).2.table.cells i j
      = (redoChain (model0 t) (editCmds es)).table.cells i j := by
  have hlen : (editCmds es).length = es.length := List.length_map _ _
  have hdlen : ((editCmds es).drop ((editCmds es).length - N)).length = N := by
    rw [List.length_drop]
    omega
  have htakeW : ((editCmds es).drop ((editCmds es).length - N)).take N =
      (editCmds es).drop ((editCmds es).length - N) :=
    List.take_of_length_le (le_of_eq hdlen)
  have hu := undoN_eq (editCmds es) lim N (editCmds es).length
      (redoChain (model0 t) (editCmds es)) (by omega) (le_refl _)
  rw [htakeW] at hu
  have hr := redoN_eq (editCmds es) lim N ((editCmds es).length - N)
      (undoFold (redoChain (model0 t) (editCmds es))
        ((editCmds es).drop ((editCmds es).length - N)).reverse) (by omega)
  rw [htakeW] at hr
  rw [hu, hr]
  show (redoChain (undoFold (redoChain (model0 t) (editCmds es))
      ((editCmds es).drop ((editCmds es).length - N)).reverse)
      ((editCmds es).drop ((editCmds es).length - N))).table.cells i j
    = (redoChain (model0 t) (editCmds es)).table.cells i j
  have hdropmap : (editCmds es).drop ((editCmds es).length - N) =
      editCmds (es.drop (es.length - N)) := by
    show (es.map _).drop ((es.map _).length - N) = (es.drop (es.length - N)).map _
    rw [List.length_map]
    exact (List.map_drop _ _ _).symm
  have hsplitM : redoChain (model0 t) (editCmds es) =
      redoChain (redoChain (model0 t) ((editCmds es).take ((editCmds es).length - N)))
        ((editCmds es).drop ((editCmds es).length - N)) := by
    conv_lhs => rw [← List.take_append_drop ((editCmds es).length - N) (editCmds es)]
    exact redoChain_append _ _ _
  rw [hsplitM, hdropmap]
  exact redo_after_undo_window _ _ i j

/-! ### Redo-undo cycles of a single `EditCell` command -/

theorem cycle_step_cell (m : DataFrameModel) (r : Ref) (o n : Value)
    (hv : m.table.valid r = true) :
    ((Command.editCell r o n).undo
        ((Command.editCell r o n).redo m)).table.cells r.row r.col = normApply o := by
  rw [undo_cells]
  have hhit : hitR ((Command.editCell r o n).redo m).table.nrows
      ((Command.editCell r o n).redo m).table.ncols r.row r.col r := by
    rw [redo_nrows, redo_ncols]
    exact hit_of_valid m r hv
  show (if hitR ((Command.editCell r o n).redo m).table.nrows
      ((Command.editCell r o n).redo m).table.ncols r.row r.col r
    then normApply o
    else ((Command.editCell r o n).redo m).table.cells r.row r.col) = normApply o
  rw [if_pos hhit]

theorem cycle_step_valid (m : DataFrameModel) (c : Command) (r : Ref)
    (hv : m.table.valid r = true) :
    (c.undo (c.redo m)).table.valid r = true := by
  rw [valid_iff] at hv ⊢
  rw [undo_nrows, undo_ncols, redo_nrows, redo_ncols]
  exact hv

theorem cycle_cells_eq (r : Ref) (o n : Value) :
    ∀ (k : Nat) (m : DataFrameModel), m.table.valid r = true →
      (cycleRU (Command.editCell r o n) (k + 1) m).table.cells r.row r.col
        = normApply o := by
  intro k
  induction k with
  | zero =>
    intro m hv
    show (cycleRU (Command.editCell r o n) 0
        ((Command.editCell r o n).undo
          ((Command.editCell r o n).redo m))).table.cells r.row r.col = _
    exact cycle_step_cell m r o n hv
  | succ k ih =>
    intro m hv
    show (cycleRU (Command.editCell r o n) (k + 1)
        ((Command.editCell r o n).undo
          ((Command.editCell r o n).redo m))).table.cells r.row r.col = _
    exact ih _ (cycle_step_valid m _ r hv)

theorem cycle_cells_other (r : Ref) (o n : Value) (i j : Nat)
    (hne : ¬ (r.row = i ∧ r.col = j)) :
    ∀ (k : Nat) (m : DataFrameModel),
      (cycleRU (Command.editCell r o n) k m).table.cells i j = m.table.cells i j := by
  intro k
  induction k with
  | zero => intro m; rfl
  | succ k ih =>
    intro m
    show (cycleRU (Command.editCell r o n) k
        ((Command.editCell r o n).undo
          ((Command.editCell r o n).redo m))).table.cells i j = _
    rw [ih]
    have hno : ∀ (a b : Nat) (w : Value), ∀ p ∈ [(r, w)], ¬ hitR a b i j p.1 := by
      intro a b w p hp hph
      have hp1 : p = (r, w) := List.mem_singleton.mp hp
      rw [hp1] at hph
      exact hne ⟨hph.2.1, hph.2.2⟩
    rw [undo_cells]
    show sFinal ((Command.editCell r o n).redo m).table.nrows
        ((Command.editCell r o n).redo m).table.ncols i j [(r, o)]
        (((Command.editCell r o n).redo m).table.cells i j) = _
    rw [sFinal_no_hit _ _ i j [(r, o)] _ (hno _ _ o), redo_cells]
    show sFinal m.table.nrows m.table.ncols i j [(r, n)] (m.table.cells i j) = _
    rw [sFinal_no_hit _ _ i j [(r, n)] _ (hno _ _ n)]

/-- C4 counterexample: an `EditCell` command whose captured old value is
the literal empty string (captured faithfully from the current cell,
which is in bounds): one redo followed by one undo leaves the cell
absent (NA), not the pre-redo empty string — bit-for-bit restoration
fails for blank-like strings. -/
theorem C4_undo_redo_counterexample :
    c4model.table.valid ⟨0, 0⟩ = true ∧
    c4model.table.cells 0 0 = Value.str "" ∧
    (c4cmd.undo (c4cmd.redo c4model)).table.cells 0 0 ≠ c4model.table.cells 0 0 := by
  decide

/-- C4 (amended): (1) for an `EditCell` command on an in-bounds cell,
redo-then-undo repeated any number of times leaves the affected cell at
the blank-normalization of the captured old value — equal to the exact
pre-redo value whenever that value is `normApply`-stable (in particular
any captured non-blank string or NA), but NA for a captured empty string
or blank sentinel; (2) all other cells are untouched by the cycles; and
(3) for every sequence of cell edits (a replayed `EditCell` history), N
undos followed by N redos with N at most the history depth reproduce the
pre-undo table state at every cell. -/
theorem C4_undo_redo_amended :
    (∀ (m : DataFrameModel) (r : Ref) (o n : Value) (k : Nat),
        m.table.valid r = true → 1 ≤ k →
        (cycleRU (Command.editCell r o n) k m).table.cells r.row r.col = normApply o) ∧
    (∀ (m : DataFrameModel) (r : Ref) (o n : Value) (k : Nat) (i j : Nat),
        ¬ (r.row = i ∧ r.col = j) →
        (cycleRU (Command.editCell r o n) k m).table.cells i j = m.table.cells i j) ∧
    (∀ (t : Table) (es : List (Ref × Value × Value)) (N lim : Nat), N ≤ es.length →
      ∀ i j, (redoN N (undoN N (⟨editCmds es, (editCmds es).length, lim⟩,
          redoChain (model0 t) (editCmds es)))).2.table.cells i j
        = (redoChain (model0 t) (editCmds es)).table.cells i j) := by
  refine ⟨?_, ?_, ?_⟩
  · intro m r o n k hv hk
    cases k with
    | zero => omega
    | succ k => exact cycle_cells_eq r o n k m hv
  · intro m r o n k i j hne
    exact cycle_cells_other r o n i j hne k m
  · intro t es N lim hN i j
    exact undoN_redoN_replay t es N lim hN i j

/-- Witness for C4 (amended): two redo-undo cycles on a cell holding
`"x"` restore `"x"`, and 2 undos followed by 2 redos after two edits of
a 1×1 table reproduce the table. -/
theorem C4_undo_redo_amended_witness :
    (cycleRU (Command.editCell ⟨0, 0⟩ (Value.str "x") (Value.str "y")) 2
        c4wmodel).table.cells 0 0 = normApply (Value.str "x") ∧
    (redoN 2 (undoN 2 (⟨editCmds c4es, (editCmds c4es).length, 50⟩,
        redoChain (model0 (oneCell Value.na)) (editCmds c4es)))).2.table.cells 0 0
      = (redoChain (model0 (oneCell Value.na)) (editCmds c4es)).table.cells 0 0 :=
  ⟨C4_undo_redo_amended.1 c4wmodel ⟨0, 0⟩ (Value.str "x") (Value.str "y") 2
      (by decide) (by decide),
   C4_undo_redo_amended.2.2 (oneCell Value.na) c4es 2 50 (by decide) 0 0⟩

end Mantra
